import Mathlib

/-!
Verification of the manifest patcher `ipad/scripts/update_audio_resources.py`.

The script is embedded shallowly: Python strings become `List Char`, the two
regular expressions of the script are modelled by deterministic matchers
(each `\s*` / `[...]+` / `\d+` in those patterns is followed by a literal
whose first character the repeated class cannot match, so the greedy match
never backtracks), `str.replace` and `re.sub` become fuel-indexed scanners
performing the same leftmost non-overlapping replacement, and `hashlib.md5`
is implemented in full so that `generate_uuid` is the real function.
Byte strings are `List Nat` with values below 256.
-/

set_option maxRecDepth 8000

/-- Characters of the regex class `[a-zA-Z0-9_\-]` used in `get_existing_files`. -/
def isCls (c : Char) : Bool :=
  let n := c.toNat
  (97 ≤ n && n ≤ 122) || (65 ≤ n && n ≤ 90) || (48 ≤ n && n ≤ 57) || n == 95 || n == 45

/-- Characters matched by Python's `\s` on `str` (Unicode whitespace together with
the ASCII separators `\x1c`–`\x1f` and `\x85`). -/
def isPyWs (c : Char) : Bool :=
  let n := c.toNat
  (9 ≤ n && n ≤ 13) || n == 32 || (28 ≤ n && n ≤ 31) || n == 0x85 || n == 0xa0 ||
    n == 0x1680 || (0x2000 ≤ n && n ≤ 0x200a) || n == 0x2028 || n == 0x2029 ||
    n == 0x202f || n == 0x205f || n == 0x3000

/-- ASCII decimal digits, for the `\d+` of the build-phase pattern.  (Python's
`\d` also accepts non-ASCII decimal digits; the manifests at issue are ASCII.) -/
def isAsciiDigit (c : Char) : Bool := 48 ≤ c.toNat && c.toNat ≤ 57

/-- The four characters `.mp3`. -/
def mp3Suffix : List Char := ['.', 'm', 'p', '3']

/-- A well-formed audio filename: a nonempty stem over `[a-zA-Z0-9_\-]`
followed by `.mp3`.  These are exactly the strings the capture group
`([a-zA-Z0-9_\-]+\.mp3)` of `get_existing_files` can produce. -/
def NiceName (f : List Char) : Prop :=
  ∃ stem, stem ≠ [] ∧ (∀ c ∈ stem, isCls c = true) ∧ f = stem ++ mp3Suffix

instance : DecidablePred NiceName := fun f =>
  if h : f.take (f.length - 4) ≠ [] ∧
      (∀ c ∈ f.take (f.length - 4), isCls c = true) ∧
      f.drop (f.length - 4) = mp3Suffix then
    .isTrue ⟨f.take (f.length - 4), h.1, h.2.1, by rw [← h.2.2, List.take_append_drop]⟩
  else
    .isFalse <| by
      rintro ⟨stem, hne, hcls, rfl⟩
      apply h
      have hl : (stem ++ mp3Suffix).length - 4 = stem.length := by simp [mp3Suffix]
      rw [hl, List.take_left, List.drop_left]
      exact ⟨hne, hcls, rfl⟩

/-- One attempt of the regex `/\*\s*([a-zA-Z0-9_\-]+\.mp3)\s*\*/` anchored at the
head of `l`.  On success it returns the text of capture group 1 together with the
input remaining after the whole match.  The pattern is deterministic: each greedy
piece (`\s*`, `[a-zA-Z0-9_\-]+`, the second `\s*`) is followed by a literal whose
first character (`[a-zA-Z0-9_\-]`, `.`, `*`) the repeated class cannot contain, so
Python's backtracking engine accepts exactly the maximal runs taken here. -/
def matchAt (l : List Char) : Option (List Char × List Char) :=
  match l with
  | '/' :: '*' :: r1 =>
    let r2 := r1.dropWhile isPyWs
    let g := r2.takeWhile isCls
    if g.isEmpty then none
    else
      match r2.dropWhile isCls with
      | '.' :: 'm' :: 'p' :: '3' :: r4 =>
        match r4.dropWhile isPyWs with
        | '*' :: '/' :: r5 => some (g ++ mp3Suffix, r5)
        | _ => none
      | _ => none
  | _ => none

/-- Fuelled scan of `re.findall`: try a match at every position, left to right,
resuming after the end of each successful (never empty) match. -/
def findallF : Nat → List Char → List (List Char)
  | 0, _ => []
  | _ + 1, [] => []
  | fuel + 1, c :: rest =>
    match matchAt (c :: rest) with
    | some (g, r) => g :: findallF fuel r
    | none => findallF fuel rest

/-- `get_existing_files` of the script: all capture-group-1 values of
`re.findall(r'/\*\s*([a-zA-Z0-9_\-]+\.mp3)\s*\*/', content)`.  The Python code
wraps the result in `set()` and only ever tests membership, so the list of
captures (queried with `∈`) is a faithful model. -/
def get_existing_files (content : List Char) : List (List Char) :=
  findallF content.length content

/-- Fuelled model of Python's `str.replace(old, new)` for nonempty `old`:
leftmost non-overlapping occurrences of `old` are each replaced by `new`. -/
def replaceAllF (old new : List Char) : Nat → List Char → List Char
  | _, [] => []
  | 0, l => l
  | fuel + 1, c :: rest =>
    if old.isPrefixOf (c :: rest) then
      new ++ replaceAllF old new fuel ((c :: rest).drop old.length)
    else
      c :: replaceAllF old new fuel rest

/-- `content.replace(old, new)` (with `old` nonempty, as in the script). -/
def pyReplace (content old new : List Char) : List Char :=
  replaceAllF old new content.length content

/-- Fuelled model of `re.sub(pat, r'\1' + ins, content)` for the script's two
group-1-capturing patterns: `m` is the anchored matcher of `pat`, returning the
matched text and the rest; every leftmost non-overlapping match is replaced by
itself followed by `ins`. -/
def resubF (m : List Char → Option (List Char × List Char)) (ins : List Char) :
    Nat → List Char → List Char
  | _, [] => []
  | 0, l => l
  | fuel + 1, c :: rest =>
    match m (c :: rest) with
    | some (mt, r) => mt ++ ins ++ resubF m ins fuel r
    | none => c :: resubF m ins fuel rest

def pyResub (m : List Char → Option (List Char × List Char)) (ins content : List Char) :
    List Char :=
  resubF m ins content.length content

/-- Match a literal and return the rest. -/
def litThen (lit l : List Char) : Option (List Char) :=
  if lit.isPrefixOf l then some (l.drop lit.length) else none

def groupLit1 : List Char := "469C33ED2F07DD48002E908D /* Audio */ = \x7b".data
def groupLit2 : List Char := "isa = PBXGroup;".data
def groupLit3 : List Char := "children = (".data

/-- Anchored matcher of the script's `audio_group_pattern`
`(469C33ED2F07DD48002E908D /\* Audio \*/ = \{\s*isa = PBXGroup;\s*children = \()`.
Deterministic for the same reason as `matchAt`: each `\s*` is followed by a
non-whitespace literal character. -/
def matchGroupAt (l : List Char) : Option (List Char × List Char) :=
  match litThen groupLit1 l with
  | none => none
  | some r1 =>
    let w1 := r1.takeWhile isPyWs
    match litThen groupLit2 (r1.dropWhile isPyWs) with
    | none => none
    | some r2 =>
      let w2 := r2.takeWhile isPyWs
      match litThen groupLit3 (r2.dropWhile isPyWs) with
      | none => none
      | some r3 =>
        some (groupLit1 ++ w1 ++ groupLit2 ++ w2 ++ groupLit3, r3)

def resLit1 : List Char := "46B7609C2F024AD600F1A587 /* Resources */ = \x7b".data
def resLit2 : List Char := "isa = PBXResourcesBuildPhase;".data
def resLit3 : List Char := "buildActionMask = ".data
def resLit4 : List Char := "files = (".data

/-- Anchored matcher of the script's `ipad_resources_pattern`
`(46B7609C2F024AD600F1A587 /\* Resources \*/ = \{\s*isa = PBXResourcesBuildPhase;\s*buildActionMask = \d+;\s*files = \()`. -/
def matchResAt (l : List Char) : Option (List Char × List Char) :=
  match litThen resLit1 l with
  | none => none
  | some r1 =>
    let w1 := r1.takeWhile isPyWs
    match litThen resLit2 (r1.dropWhile isPyWs) with
    | none => none
    | some r2 =>
      let w2 := r2.takeWhile isPyWs
      match litThen resLit3 (r2.dropWhile isPyWs) with
      | none => none
      | some r3 =>
        let d := r3.takeWhile isAsciiDigit
        if d.isEmpty then none
        else
          match r3.dropWhile isAsciiDigit with
          | ';' :: r4 =>
            let w3 := r4.takeWhile isPyWs
            match litThen resLit4 (r4.dropWhile isPyWs) with
            | none => none
            | some r5 =>
              some (resLit1 ++ w1 ++ resLit2 ++ w2 ++ resLit3 ++ d ++ [';'] ++ w3 ++
                resLit4, r5)
          | _ => none

/-- `2^32` truncation. -/
def m32 (x : Nat) : Nat := x % 4294967296

/-- 32-bit left rotation (the operand is `< 2^32`). -/
def rotl32 (x s : Nat) : Nat := m32 (x * 2 ^ s) + x / 2 ^ (32 - s)

/-- Bitwise complement on 32 bits. -/
def not32 (x : Nat) : Nat := 4294967295 - x

/-- The 64 MD5 sine constants `floor(|sin(i+1)| * 2^32)`. -/
def md5K : List Nat :=
  [3614090360, 3905402710, 606105819, 3250441966, 4118548399, 1200080426, 2821735955, 4249261313,
   1770035416, 2336552879, 4294925233, 2304563134, 1804603682, 4254626195, 2792965006, 1236535329,
   4129170786, 3225465664, 643717713, 3921069994, 3593408605, 38016083, 3634488961, 3889429448,
   568446438, 3275163606, 4107603335, 1163531501, 2850285829, 4243563512, 1735328473, 2368359562,
   4294588738, 2272392833, 1839030562, 4259657740, 2763975236, 1272893353, 4139469664, 3200236656,
   681279174, 3936430074, 3572445317, 76029189, 3654602809, 3873151461, 530742520, 3299628645,
   4096336452, 1126891415, 2878612391, 4237533241, 1700485571, 2399980690, 4293915773, 2240044497,
   1873313359, 4264355552, 2734768916, 1309151649, 4149444226, 3174756917, 718787259, 3951481745]

/-- The 64 MD5 per-round shift amounts. -/
def md5S : List Nat :=
  [7, 12, 17, 22, 7, 12, 17, 22, 7, 12, 17, 22, 7, 12, 17, 22,
   5, 9, 14, 20, 5, 9, 14, 20, 5, 9, 14, 20, 5, 9, 14, 20,
   4, 11, 16, 23, 4, 11, 16, 23, 4, 11, 16, 23, 4, 11, 16, 23,
   6, 10, 15, 21, 6, 10, 15, 21, 6, 10, 15, 21, 6, 10, 15, 21]

/-- The sixteen little-endian 32-bit words of one 64-byte block. -/
def md5Words (block : List Nat) : List Nat :=
  (List.range 16).map fun j =>
    block.getD (4 * j) 0 + 256 * block.getD (4 * j + 1) 0 +
      65536 * block.getD (4 * j + 2) 0 + 16777216 * block.getD (4 * j + 3) 0

/-- One of the 64 MD5 steps applied to the state `(a, b, c, d)`. -/
def md5Step (w : List Nat) (st : Nat × Nat × Nat × Nat) (i : Nat) :
    Nat × Nat × Nat × Nat :=
  let (a, b, c, d) := st
  let fg : Nat × Nat :=
    if i < 16 then (Nat.lor (Nat.land b c) (Nat.land (not32 b) d), i)
    else if i < 32 then (Nat.lor (Nat.land d b) (Nat.land (not32 d) c), (5 * i + 1) % 16)
    else if i < 48 then (Nat.xor (Nat.xor b c) d, (3 * i + 5) % 16)
    else (Nat.xor c (Nat.lor b (not32 d)), (7 * i) % 16)
  let f := m32 (fg.1 + a + md5K.getD i 0 + w.getD fg.2 0)
  (d, m32 (b + rotl32 f (md5S.getD i 0)), b, c)

/-- The MD5 compression function on one 64-byte block. -/
def md5Compress (st : Nat × Nat × Nat × Nat) (block : List Nat) :
    Nat × Nat × Nat × Nat :=
  let w := md5Words block
  let (a, b, c, d) := (List.range 64).foldl (md5Step w) st
  (m32 (st.1 + a), m32 (st.2.1 + b), m32 (st.2.2.1 + c), m32 (st.2.2.2 + d))

/-- Process the padded message, 64 bytes at a time. -/
def md5Blocks : Nat → List Nat → Nat × Nat × Nat × Nat → Nat × Nat × Nat × Nat
  | 0, _, st => st
  | _ + 1, [], st => st
  | fuel + 1, bytes, st => md5Blocks fuel (bytes.drop 64) (md5Compress st (bytes.take 64))

/-- MD5 padding: `0x80`, zeros to 56 mod 64, then the bit length as 8
little-endian bytes. -/
def md5Pad (msg : List Nat) : List Nat :=
  let ml := msg.length
  msg ++ 128 :: List.replicate ((119 - ml % 64) % 64) 0 ++
    (List.range 8).map fun j => 8 * ml / 2 ^ (8 * j) % 256

/-- The four final MD5 state words serialized as 16 little-endian bytes. -/
def md5Digest (msg : List Nat) : List Nat :=
  let p := md5Pad msg
  let (a, b, c, d) :=
    md5Blocks (p.length / 64) p (1732584193, 4023233417, 2562383102, 271733878)
  [a, b, c, d].flatMap fun x => [x % 256, x / 256 % 256, x / 65536 % 256, x / 16777216 % 256]

/-- A nibble as a lowercase hexadecimal character. -/
def hexChar (n : Nat) : Char :=
  if n < 10 then Char.ofNat (48 + n) else Char.ofNat (87 + n)

/-- Python's `str.upper` on the ASCII characters appearing in a hex digest. -/
def upChar (c : Char) : Char :=
  if 'a' ≤ c && c ≤ 'z' then Char.ofNat (c.toNat - 32) else c

/-- `hashlib.md5(...).hexdigest()`: 32 lowercase hex characters. -/
def md5Hexdigest (msg : List Nat) : List Char :=
  (md5Digest msg).flatMap fun b => [hexChar (b / 16 % 16), hexChar (b % 16)]

/-- UTF-8 encoding of one character (Python's `str.encode()`). -/
def utf8Encode (c : Char) : List Nat :=
  let n := c.toNat
  if n < 128 then [n]
  else if n < 2048 then [192 + n / 64, 128 + n % 64]
  else if n < 65536 then [224 + n / 4096, 128 + n / 64 % 64, 128 + n % 64]
  else [240 + n / 262144, 128 + n / 4096 % 64, 128 + n / 64 % 64, 128 + n % 64]

/-- `generate_uuid` of the script: the first 24 characters of the MD5 hex digest
of the UTF-8 encoded seed, uppercased. -/
def generate_uuid (seed : List Char) : List Char :=
  ((md5Hexdigest (seed.flatMap utf8Encode)).take 24).map upChar

/-- The literal `'/* End PBXFileReference section */'` of the script. -/
def marker1 : List Char := "/* End PBXFileReference section */".data

/-- The literal `'/* End PBXBuildFile section */'` of the script. -/
def marker2 : List Char := "/* End PBXBuildFile section */".data

/-- `'\n'.join(lines)`. -/
def joinNL : List (List Char) → List Char
  | [] => []
  | [x] => x
  | x :: y :: xs => x ++ '\n' :: joinNL (y :: xs)

/-- The `PBXFileReference` line generated for `filename` (f-string at line 63). -/
def fileRefLine (f : List Char) : List Char :=
  "\t\t".data ++ generate_uuid ("fileref_".data ++ f ++ "_v2".data) ++ " /* ".data ++ f ++
    " */ = \x7bisa = PBXFileReference; lastKnownFileType = audio.mp3; path = ".data ++ f ++
    "; sourceTree = \"<group>\"; \x7d;".data

/-- The `PBXBuildFile` line generated for `filename` (f-string at line 67). -/
def buildFileLine (f : List Char) : List Char :=
  "\t\t".data ++ generate_uuid ("buildfile_".data ++ f ++ "_v2".data) ++
    " /* ".data ++ f ++ " in Resources */ = \x7bisa = PBXBuildFile; fileRef = ".data ++
    generate_uuid ("fileref_".data ++ f ++ "_v2".data) ++ " /* ".data ++ f ++ " */; \x7d;".data

/-- The group-children entry generated for `filename` (f-string at line 71). -/
def groupChildLine (f : List Char) : List Char :=
  "\t\t\t\t".data ++ generate_uuid ("fileref_".data ++ f ++ "_v2".data) ++
    " /* ".data ++ f ++ " */,".data

/-- The resources-build-phase entry generated for `filename` (f-string at line 109). -/
def phaseEntryLine (f : List Char) : List Char :=
  "\t\t\t\t".data ++ generate_uuid ("buildfile_".data ++ f ++ "_v2".data) ++
    " /* ".data ++ f ++ " in Resources */,".data

/-- Strict lexicographic comparison of Python strings (by code point). -/
def pyStrLt : List Char → List Char → Bool
  | [], [] => false
  | [], _ :: _ => true
  | _ :: _, [] => false
  | a :: as, b :: bs =>
    if a.toNat < b.toNat then true
    else if b.toNat < a.toNat then false
    else pyStrLt as bs

/-- Insert into a sorted list, after any equal elements (stability of
Python's `sorted`). -/
def insertSorted (x : List Char) : List (List Char) → List (List Char)
  | [] => [x]
  | y :: ys => if pyStrLt x y then x :: y :: ys else y :: insertSorted x ys

/-- `get_audio_files` of the script, parameterized by the directory listing:
keep the names ending in `.mp3`, sorted lexicographically. -/
def get_audio_files (dirFiles : List (List Char)) : List (List Char) :=
  (dirFiles.filter fun f => mp3Suffix.isSuffixOf f).foldl (fun acc f => insertSorted f acc) []

/-- Decimal digits of a natural number (Python's `str(n)`), with fuel. -/
def natStrF : Nat → Nat → List Char
  | 0, _ => []
  | fuel + 1, n =>
    if n < 10 then [Char.ofNat (48 + n)]
    else natStrF fuel (n / 10) ++ [Char.ofNat (48 + n % 10)]

def natStr (n : Nat) : List Char := natStrF (n + 1) n

def allSyncedMsg : List Char := "All audio files are already in the project!".data

def foundMsg (n : Nat) : List Char := "Found ".data ++ natStr n ++ " missing audio files:".data

def itemMsg (f : List Char) : List Char := "  - ".data ++ f

def genMsg (f : List Char) : List Char :=
  "Generated refs for ".data ++ f ++ ": fileRef=".data ++
    generate_uuid ("fileref_".data ++ f ++ "_v2".data) ++ ", buildFile=".data ++
    generate_uuid ("buildfile_".data ++ f ++ "_v2".data)

def successMsg (n : Nat) : List Char :=
  "\nSuccessfully added ".data ++ natStr n ++ " audio files to the project!".data

def rebuildMsg : List Char := "Please rebuild the project in Xcode.".data

/-- The observable outcome of one invocation of `main`: the final manifest text,
whether the file was written back, and the lines printed to the operator. -/
structure RunResult where
  text : List Char
  wrote : Bool
  messages : List (List Char)
  deriving DecidableEq

/-- The filenames the run considers missing:
`[f for f in audio_files if f not in existing_files]`. -/
def missingOf (content : List Char) (dirFiles : List (List Char)) : List (List Char) :=
  (get_audio_files dirFiles).filter fun f => !((get_existing_files content).contains f)

/-- `main` of the script, with the manifest text and the resource-directory
listing passed in instead of read from disk.  Mirrors the source line by line:
scan, diff, early return when nothing is missing, generate the three kinds of
records, splice them at the two section-end markers (`str.replace`, i.e. at
every occurrence) and into the two regex-located regions (`re.sub`), then
write back. -/
def runMain (content : List Char) (dirFiles : List (List Char)) : RunResult :=
  let missing := missingOf content dirFiles
  if missing.isEmpty then
    { text := content, wrote := false, messages := [allSyncedMsg] }
  else
    let c1 := pyReplace content marker1 (joinNL (missing.map fileRefLine) ++ '\n' :: marker1)
    let c2 := pyReplace c1 marker2 (joinNL (missing.map buildFileLine) ++ '\n' :: marker2)
    let c3 := pyResub matchGroupAt ('\n' :: joinNL (missing.map groupChildLine)) c2
    let c4 := pyResub matchResAt ('\n' :: joinNL (missing.map phaseEntryLine)) c3
    { text := c4
      wrote := true
      messages := foundMsg missing.length :: missing.map itemMsg ++ missing.map genMsg ++
        [successMsg missing.length, rebuildMsg] }

/-- `pat` occurs as a contiguous substring of `l`. -/
def Occurs (pat l : List Char) : Prop := ∃ A B, l = A ++ pat ++ B

instance (pat l : List Char) : Decidable (Occurs pat l) :=
  if h : pat <:+: l then
    .isTrue (by obtain ⟨s, t, hst⟩ := h; exact ⟨s, t, hst.symm⟩)
  else
    .isFalse (by rintro ⟨A, B, rfl⟩; exact h ⟨A, B, rfl⟩)

/-- Python's `str.count`: number of non-overlapping occurrences, scanning left
to right (with fuel; `pat` nonempty at every use). -/
def countOccsF (pat : List Char) : Nat → List Char → Nat
  | _, [] => 0
  | 0, _ => 0
  | fuel + 1, c :: rest =>
    if pat.isPrefixOf (c :: rest) then
      1 + countOccsF pat fuel ((c :: rest).drop pat.length)
    else
      countOccsF pat fuel rest

def countOccs (pat l : List Char) : Nat := countOccsF pat l.length l

/-- The block `&nbsp;/* f */&nbsp;` (a space, the comment with single-space
padding, a space) as it appears in every generated record line. -/
def trackedBlock (f : List Char) : List Char :=
  ' ' :: '/' :: '*' :: ' ' :: (f ++ [' ', '*', '/', ' '])

/-- Uppercase hexadecimal digits (the identifier characters appearing in the
hard-coded UUID literals of the two patterns). -/
def isHexUp (c : Char) : Bool :=
  (48 ≤ c.toNat && c.toNat ≤ 57) || (65 ≤ c.toNat && c.toNat ≤ 70)

/-- Modelled from the spec (§6, Manifest record syntax): the reference-record
template exactly as written there, with a space after the opening brace:
`<indentation><IDENTIFIER> /* <filename> */ = { isa = <FileReferenceKind>;
lastKnownFileType = <fixedType>; path = <filename>; sourceTree = "<group>"; };` -/
def specReferenceRecord (indentation identifier filename kind fixedType group : List Char) :
    List Char :=
  indentation ++ identifier ++ " /* ".data ++ filename ++ " */ = \x7b isa = ".data ++ kind ++
    "; lastKnownFileType = ".data ++ fixedType ++ "; path = ".data ++ filename ++
    "; sourceTree = \"".data ++ group ++ "\"; \x7d;".data

/-- Modelled from the spec (§6): the build-inclusion-record template:
`<indentation><IDENTIFIER> /* <filename> in Resources */ = { isa =
<BuildFileKind>; fileRef = <REF_IDENTIFIER> /* <filename> */; };` -/
def specBuildRecord (indentation identifier filename kind refIdentifier : List Char) :
    List Char :=
  indentation ++ identifier ++ " /* ".data ++ filename ++ " in Resources */ = \x7b isa = ".data ++
    kind ++ "; fileRef = ".data ++ refIdentifier ++ " /* ".data ++ filename ++ " */; \x7d;".data

/-- Modelled from the spec (§6): the group-membership-line template:
`<indentation><IDENTIFIER> /* <filename> */,` -/
def specGroupLine (indentation identifier filename : List Char) : List Char :=
  indentation ++ identifier ++ " /* ".data ++ filename ++ " */,".data

/-- The reference-record template as the code actually emits it: no space
after the opening brace. -/
def amendedReferenceRecord (indentation identifier filename kind fixedType group : List Char) :
    List Char :=
  indentation ++ identifier ++ " /* ".data ++ filename ++ " */ = \x7bisa = ".data ++ kind ++
    "; lastKnownFileType = ".data ++ fixedType ++ "; path = ".data ++ filename ++
    "; sourceTree = \"".data ++ group ++ "\"; \x7d;".data

/-- The build-inclusion-record template as the code actually emits it: no
space after the opening brace. -/
def amendedBuildRecord (indentation identifier filename kind refIdentifier : List Char) :
    List Char :=
  indentation ++ identifier ++ " /* ".data ++ filename ++ " in Resources */ = \x7bisa = ".data ++
    kind ++ "; fileRef = ".data ++ refIdentifier ++ " /* ".data ++ filename ++ " */; \x7d;".data

/-- The canonical well-formed manifest of the C6 scenario: each section
marker and each region pattern occurs exactly once and only `a.mp3` is
registered. -/
def mfull : List Char := "// !$*UTF8*$!\n/* Begin PBXBuildFile section */\n\t\tAAAA /* a.mp3 in Resources */ = \x7bisa = PBXBuildFile; fileRef = BBBB /* a.mp3 */; \x7d;\n/* End PBXBuildFile section */\n/* Begin PBXFileReference section */\n\t\tBBBB /* a.mp3 */ = \x7bisa = PBXFileReference; lastKnownFileType = audio.mp3; path = a.mp3; sourceTree = \"<group>\"; \x7d;\n/* End PBXFileReference section */\n\t\t469C33ED2F07DD48002E908D /* Audio */ = \x7b\n\t\t\tisa = PBXGroup;\n\t\t\tchildren = (\n\t\t\t\tBBBB /* a.mp3 */,\n\t\t\t);\n\t\t\x7d;\n\t\t46B7609C2F024AD600F1A587 /* Resources */ = \x7b\n\t\t\tisa = PBXResourcesBuildPhase;\n\t\t\tbuildActionMask = 2147483647;\n\t\t\tfiles = (\n\t\t\t\tAAAA /* a.mp3 in Resources */,\n\t\t\t);\n\t\t\x7d;\n".data

/-- The text produced by one run of the patcher on `mfull` with directory
listing `b.mp3`, `a.mp3`, `notes.txt` (computed by the reference
implementation and checked below by evaluation). -/
def mfullOut : List Char := "// !$*UTF8*$!\n/* Begin PBXBuildFile section */\n\t\tAAAA /* a.mp3 in Resources */ = \x7bisa = PBXBuildFile; fileRef = BBBB /* a.mp3 */; \x7d;\n\t\t6560B8E377EEAF70AC34AA5F /* b.mp3 in Resources */ = \x7bisa = PBXBuildFile; fileRef = 6D7ACE6199C4C8D75676D999 /* b.mp3 */; \x7d;\n/* End PBXBuildFile section */\n/* Begin PBXFileReference section */\n\t\tBBBB /* a.mp3 */ = \x7bisa = PBXFileReference; lastKnownFileType = audio.mp3; path = a.mp3; sourceTree = \"<group>\"; \x7d;\n\t\t6D7ACE6199C4C8D75676D999 /* b.mp3 */ = \x7bisa = PBXFileReference; lastKnownFileType = audio.mp3; path = b.mp3; sourceTree = \"<group>\"; \x7d;\n/* End PBXFileReference section */\n\t\t469C33ED2F07DD48002E908D /* Audio */ = \x7b\n\t\t\tisa = PBXGroup;\n\t\t\tchildren = (\n\t\t\t\t6D7ACE6199C4C8D75676D999 /* b.mp3 */,\n\t\t\t\tBBBB /* a.mp3 */,\n\t\t\t);\n\t\t\x7d;\n\t\t46B7609C2F024AD600F1A587 /* Resources */ = \x7b\n\t\t\tisa = PBXResourcesBuildPhase;\n\t\t\tbuildActionMask = 2147483647;\n\t\t\tfiles = (\n\t\t\t\t6560B8E377EEAF70AC34AA5F /* b.mp3 in Resources */,\n\t\t\t\tAAAA /* a.mp3 in Resources */,\n\t\t\t);\n\t\t\x7d;\n".data

/-- The operator messages of that run. -/
def mfullMsgs : List (List Char) :=
  ["Found 1 missing audio files:".data,
   "  - b.mp3".data,
   "Generated refs for b.mp3: fileRef=6D7ACE6199C4C8D75676D999, buildFile=6560B8E377EEAF70AC34AA5F".data,
   "\nSuccessfully added 1 audio files to the project!".data,
   "Please rebuild the project in Xcode.".data]

/-- `mfull` without the Audio group section (group pattern absent). -/
def mnogroup : List Char := "// !$*UTF8*$!\n/* Begin PBXBuildFile section */\n\t\tAAAA /* a.mp3 in Resources */ = \x7bisa = PBXBuildFile; fileRef = BBBB /* a.mp3 */; \x7d;\n/* End PBXBuildFile section */\n/* Begin PBXFileReference section */\n\t\tBBBB /* a.mp3 */ = \x7bisa = PBXFileReference; lastKnownFileType = audio.mp3; path = a.mp3; sourceTree = \"<group>\"; \x7d;\n/* End PBXFileReference section */\n\t\t46B7609C2F024AD600F1A587 /* Resources */ = \x7b\n\t\t\tisa = PBXResourcesBuildPhase;\n\t\t\tbuildActionMask = 2147483647;\n\t\t\tfiles = (\n\t\t\t\tAAAA /* a.mp3 in Resources */,\n\t\t\t);\n\t\t\x7d;\n".data

/-- The text produced by one run on `mnogroup`. -/
def mnogroupOut : List Char := "// !$*UTF8*$!\n/* Begin PBXBuildFile section */\n\t\tAAAA /* a.mp3 in Resources */ = \x7bisa = PBXBuildFile; fileRef = BBBB /* a.mp3 */; \x7d;\n\t\t6560B8E377EEAF70AC34AA5F /* b.mp3 in Resources */ = \x7bisa = PBXBuildFile; fileRef = 6D7ACE6199C4C8D75676D999 /* b.mp3 */; \x7d;\n/* End PBXBuildFile section */\n/* Begin PBXFileReference section */\n\t\tBBBB /* a.mp3 */ = \x7bisa = PBXFileReference; lastKnownFileType = audio.mp3; path = a.mp3; sourceTree = \"<group>\"; \x7d;\n\t\t6D7ACE6199C4C8D75676D999 /* b.mp3 */ = \x7bisa = PBXFileReference; lastKnownFileType = audio.mp3; path = b.mp3; sourceTree = \"<group>\"; \x7d;\n/* End PBXFileReference section */\n\t\t46B7609C2F024AD600F1A587 /* Resources */ = \x7b\n\t\t\tisa = PBXResourcesBuildPhase;\n\t\t\tbuildActionMask = 2147483647;\n\t\t\tfiles = (\n\t\t\t\t6560B8E377EEAF70AC34AA5F /* b.mp3 in Resources */,\n\t\t\t\tAAAA /* a.mp3 in Resources */,\n\t\t\t);\n\t\t\x7d;\n".data

/-- A manifest consisting of just the FileReference section-end marker. -/
def mtiny : List Char := "/* End PBXFileReference section */".data

/-- A manifest registering only `a.mp3` in which the FileReference
section-end marker occurs twice. -/
def mdup : List Char := "\t\tAAAA /* a.mp3 */ = x;\n/* End PBXFileReference section */\nmore\n/* End PBXFileReference section */\n".data

/-- A manifest in which the only occurrence of the FileReference section-end
marker starts at the closing slash of the registered comment `/* a.mp3 */`:
the comment's trailing `/` doubles as the marker's leading `/`. -/
def mclash : List Char := "/* a.mp3 */* End PBXFileReference section */".data

/-- If `old` does not occur in `l`, the replacement scan returns `l` unchanged. -/
theorem replaceAllF_of_not_occurs (old new : List Char) :
    ∀ fuel l, ¬ Occurs old l → replaceAllF old new fuel l = l := by
  intro fuel
  induction fuel with
  | zero => intro l _; cases l <;> rfl
  | succ fuel ih =>
    intro l hno
    match l with
    | [] => rfl
    | c :: rest =>
      rw [replaceAllF]
      have hpre : ¬ old.isPrefixOf (c :: rest) := by
        intro hp
        obtain ⟨t, ht⟩ := List.isPrefixOf_iff_prefix.mp hp
        exact hno ⟨[], t, ht.symm⟩
      rw [if_neg hpre, ih rest fun ⟨A, B, hAB⟩ => hno ⟨c :: A, B, by simp [hAB]⟩]

/-- If `old` does not occur in `content`, `str.replace` is a no-op. -/
theorem pyReplace_of_not_occurs (content old new : List Char) (h : ¬ Occurs old content) :
    pyReplace content old new = content :=
  replaceAllF_of_not_occurs old new content.length content h

/-- If the anchored matcher fails at every position of `l`, the substitution
scan returns `l` unchanged. -/
theorem resubF_of_no_match (m : List Char → Option (List Char × List Char)) (ins : List Char) :
    ∀ fuel l, (∀ i, m (l.drop i) = none) → resubF m ins fuel l = l := by
  intro fuel
  induction fuel with
  | zero => intro l _; cases l <;> rfl
  | succ fuel ih =>
    intro l hno
    match l with
    | [] => rfl
    | c :: rest =>
      rw [resubF]
      have h0 := hno 0
      rw [List.drop_zero] at h0
      rw [h0, ih rest fun i => by have := hno (i + 1); rwa [List.drop_succ_cons] at this]

/-- If the pattern matches at no position of `content`, `re.sub` is a no-op. -/
theorem pyResub_of_no_match (m : List Char → Option (List Char × List Char))
    (ins content : List Char) (h : ∀ i, m (content.drop i) = none) :
    pyResub m ins content = content :=
  resubF_of_no_match m ins content.length content h

/-- A successful literal match splits the input. -/
theorem litThen_eq {lit l r : List Char} (h : litThen lit l = some r) : l = lit ++ r := by
  unfold litThen at h
  split at h
  · rename_i hp
    obtain ⟨t, ht⟩ := List.isPrefixOf_iff_prefix.mp hp
    obtain rfl : l.drop lit.length = r := by injection h
    rw [← ht, List.drop_left]
  · cases h

/-- A successful group-pattern match splits the input: the matched text followed
by the rest is the input itself. -/
theorem matchGroupAt_eq_append {l mt r : List Char} (h : matchGroupAt l = some (mt, r)) :
    l = mt ++ r := by
  unfold matchGroupAt at h
  cases h1 : litThen groupLit1 l with
  | none => rw [h1] at h; cases h
  | some r1 =>
    rw [h1] at h
    simp only at h
    cases h2 : litThen groupLit2 (r1.dropWhile isPyWs) with
    | none => rw [h2] at h; cases h
    | some r2 =>
      rw [h2] at h
      simp only at h
      cases h3 : litThen groupLit3 (r2.dropWhile isPyWs) with
      | none => rw [h3] at h; cases h
      | some r3 =>
        rw [h3] at h
        simp only [Option.some.injEq, Prod.mk.injEq] at h
        obtain ⟨rfl, rfl⟩ := h
        rw [litThen_eq h1]
        conv_lhs => rw [← List.takeWhile_append_dropWhile (p := isPyWs) (l := r1)]
        rw [litThen_eq h2]
        conv_lhs => rw [← List.takeWhile_append_dropWhile (p := isPyWs) (l := r2)]
        rw [litThen_eq h3]
        simp [List.append_assoc]

/-- A successful resources-pattern match splits the input. -/
theorem matchResAt_eq_append {l mt r : List Char} (h : matchResAt l = some (mt, r)) :
    l = mt ++ r := by
  unfold matchResAt at h
  cases h1 : litThen resLit1 l with
  | none => rw [h1] at h; cases h
  | some r1 =>
    rw [h1] at h
    simp only at h
    cases h2 : litThen resLit2 (r1.dropWhile isPyWs) with
    | none => rw [h2] at h; cases h
    | some r2 =>
      rw [h2] at h
      simp only at h
      cases h3 : litThen resLit3 (r2.dropWhile isPyWs) with
      | none => rw [h3] at h; cases h
      | some r3 =>
        rw [h3] at h
        simp only at h
        split at h
        · cases h
        split at h
        case _ r4 hr3 =>
          cases h4 : litThen resLit4 (r4.dropWhile isPyWs) with
          | none => rw [h4] at h; cases h
          | some r5 =>
            rw [h4] at h
            simp only [Option.some.injEq, Prod.mk.injEq] at h
            obtain ⟨rfl, rfl⟩ := h
            rw [litThen_eq h1]
            conv_lhs => rw [← List.takeWhile_append_dropWhile (p := isPyWs) (l := r1)]
            rw [litThen_eq h2]
            conv_lhs => rw [← List.takeWhile_append_dropWhile (p := isPyWs) (l := r2)]
            rw [litThen_eq h3]
            conv_lhs =>
              rw [← List.takeWhile_append_dropWhile (p := isAsciiDigit) (l := r3), hr3]
            conv_lhs => rw [← List.takeWhile_append_dropWhile (p := isPyWs) (l := r4)]
            rw [litThen_eq h4]
            simp [List.append_assoc]
        · cases h

/-- Structure of a successful comment match: the matched span is
`/*`, whitespace, a class run, `.mp3`, whitespace, `*/`, and the capture is the
class run with `.mp3`. -/
theorem matchAt_some {l g r : List Char} (h : matchAt l = some (g, r)) :
    ∃ w₁ s w₂, (∀ c ∈ w₁, isPyWs c = true) ∧ (∀ c ∈ s, isCls c = true) ∧ s ≠ [] ∧
      (∀ c ∈ w₂, isPyWs c = true) ∧ g = s ++ mp3Suffix ∧
      l = '/' :: '*' :: (w₁ ++ s ++ mp3Suffix ++ w₂ ++ '*' :: '/' :: r) := by
  unfold matchAt at h
  split at h
  case _ r1 =>
    simp only at h
    split at h
    · cases h
    case _ hge =>
      split at h
      case _ r4 hr3 =>
        split at h
        case _ r5 hr4 =>
          simp only [Option.some.injEq, Prod.mk.injEq] at h
          obtain ⟨rfl, rfl⟩ := h
          refine ⟨r1.takeWhile isPyWs, (r1.dropWhile isPyWs).takeWhile isCls,
            r4.takeWhile isPyWs, fun c hc => List.mem_takeWhile_imp hc,
            fun c hc => List.mem_takeWhile_imp hc, by simpa using hge,
            fun c hc => List.mem_takeWhile_imp hc, rfl, ?_⟩
          rw [List.cons.injEq, List.cons.injEq]
          refine ⟨rfl, rfl, ?_⟩
          conv_lhs =>
            rw [← List.takeWhile_append_dropWhile (p := isPyWs) (l := r1)]
          conv_lhs =>
            rw [← List.takeWhile_append_dropWhile (p := isCls) (l := r1.dropWhile isPyWs), hr3]
          conv_lhs => rw [← List.takeWhile_append_dropWhile (p := isPyWs) (l := r4), hr4]
          simp [mp3Suffix]
        · cases h
      · cases h
  · cases h

/-- Splitting `takeWhile`/`dropWhile` over a satisfied run followed by a failing
character. -/
theorem takeWhile_dropWhile_append_all {p : Char → Bool} :
    ∀ (s : List Char) {d : Char} (X : List Char), (∀ c ∈ s, p c = true) → p d = false →
      (s ++ d :: X).takeWhile p = s ∧ (s ++ d :: X).dropWhile p = d :: X := by
  intro s
  induction s with
  | nil => intro d X _ hd; simp [List.takeWhile_cons, List.dropWhile_cons, hd]
  | cons c s' ih =>
    intro d X hs hd
    have hc : p c = true := hs c (by simp)
    have := ih X (fun c hc' => hs c (by simp [hc'])) hd
    simp [List.takeWhile_cons, List.dropWhile_cons, hc, this.1, this.2]

/-- Characters of the class are not whitespace. -/
theorem isCls_not_ws {c : Char} (h : isCls c = true) : isPyWs c = false := by
  simp [isCls] at h
  simp [isPyWs]
  omega

/-- Every character of a well-formed filename is a class character or `.`. -/
theorem niceName_chars {f : List Char} (hf : NiceName f) :
    ∀ c ∈ f, isCls c = true ∨ c = '.' := by
  obtain ⟨stem, _, hcls, rfl⟩ := hf
  intro c hc
  rcases List.mem_append.mp hc with h | h
  · exact .inl (hcls c h)
  · simp [mp3Suffix] at h
    rcases h with rfl | rfl | rfl | rfl
    · exact .inr rfl
    · exact .inl (by decide)
    · exact .inl (by decide)
    · exact .inl (by decide)

/-- The match attempt succeeds on a comment whose body is a well-formed filename
surrounded by whitespace, and captures exactly that filename. -/
theorem matchAt_comment {f : List Char} (hf : NiceName f) (w₁ w₂ B : List Char)
    (hw₁ : ∀ c ∈ w₁, isPyWs c = true) (hw₂ : ∀ c ∈ w₂, isPyWs c = true) :
    matchAt ('/' :: '*' :: (w₁ ++ f ++ w₂ ++ '*' :: '/' :: B)) = some (f, B) := by
  obtain ⟨stem, hne, hcls, rfl⟩ := hf
  obtain ⟨c, s', rfl⟩ : ∃ c s', stem = c :: s' := by
    cases stem with
    | nil => exact absurd rfl hne
    | cons c s' => exact ⟨c, s', rfl⟩
  have hL : w₁ ++ (c :: s' ++ mp3Suffix) ++ w₂ ++ '*' :: '/' :: B =
      w₁ ++ c :: (s' ++ '.' :: 'm' :: 'p' :: '3' :: (w₂ ++ '*' :: '/' :: B)) := by
    simp [mp3Suffix]
  have h1 := takeWhile_dropWhile_append_all (p := isPyWs) w₁
    (s' ++ '.' :: 'm' :: 'p' :: '3' :: (w₂ ++ '*' :: '/' :: B)) hw₁
    (isCls_not_ws (hcls c (by simp)))
  have h2 := takeWhile_dropWhile_append_all (p := isCls) (c :: s')
    (d := '.') ('m' :: 'p' :: '3' :: (w₂ ++ '*' :: '/' :: B)) hcls (by decide)
  have h3 := takeWhile_dropWhile_append_all (p := isPyWs) w₂
    (d := '*') ('/' :: B) hw₂ (by decide)
  rw [hL]
  unfold matchAt
  simp only
  rw [h1.2]
  rw [show c :: (s' ++ '.' :: 'm' :: 'p' :: '3' :: (w₂ ++ '*' :: '/' :: B)) =
    (c :: s') ++ '.' :: ('m' :: 'p' :: '3' :: (w₂ ++ '*' :: '/' :: B)) by simp]
  rw [h2.1, h2.2]
  simp only [List.isEmpty_cons, Bool.false_eq_true, if_false]
  rw [h3.2]
  rfl

/-- Whitespace characters are not `/` or `*`. -/
theorem isPyWs_ne {c : Char} (h : isPyWs c = true) : c ≠ '/' ∧ c ≠ '*' := by
  constructor <;> rintro rfl <;> simp [isPyWs] at h

/-- Class characters are not `/` or `*`. -/
theorem isCls_ne {c : Char} (h : isCls c = true) : c ≠ '/' ∧ c ≠ '*' := by
  constructor <;> rintro rfl <;> simp [isCls] at h

/-- A successful match starting strictly before a well-formed comment never eats
into the comment: the rest of the input after the match still contains the
comment, and the character left in front of the comment (if any) is unchanged.
`M` is the matched span, `C` the comment. -/
theorem match_no_overlap {M mid C cmid r A B : List Char}
    (hM : M = '/' :: '*' :: (mid ++ ['*', '/']))
    (hmid : ∀ c ∈ mid, c ≠ '/' ∧ c ≠ '*')
    (hC : C = '/' :: '*' :: (cmid ++ ['*', '/']))
    (hcmid : ∀ c ∈ cmid, c ≠ '/')
    (heq : M ++ r = A ++ C ++ B)
    (hA : A ≠ []) (hlast : A.getLast? ≠ some '*') :
    ∃ A₂, r = A₂ ++ C ++ B ∧ (A₂ = [] ∨ A₂.getLast? ≠ some '*') := by
  have hMcount : M.count '/' = 2 := by
    have : mid.count '/' = 0 := List.count_eq_zero.mpr fun h => (hmid _ h).1 rfl
    simp [hM, List.count_append, List.count_cons, this]
  have hMlast : M.getLast? = some '/' := by
    rw [hM, show '/' :: '*' :: (mid ++ ['*', '/']) =
      ('/' :: '*' :: mid ++ ['*']) ++ ['/'] by simp, List.getLast?_concat]
  have hCcount : C.count '/' = 2 := by
    have : cmid.count '/' = 0 := List.count_eq_zero.mpr fun h => hcmid _ h rfl
    simp [hC, List.count_append, List.count_cons, this]
  rw [List.append_assoc] at heq
  rcases List.append_eq_append_iff.mp heq with ⟨a', ha1, ha2⟩ | ⟨c', hc1, hc2⟩
  · -- the match ends inside A (or exactly at its end)
    refine ⟨a', by rw [ha2, List.append_assoc], ?_⟩
    rcases List.eq_nil_or_concat a' with rfl | ⟨a'', x, rfl⟩
    · exact .inl rfl
    · refine .inr ?_
      rw [ha1, List.getLast?_append_of_ne_nil _ (by simp)] at hlast
      exact hlast
  · -- M = A ++ c' and c' ++ r = C ++ B
    have hAcount : 1 ≤ A.count '/' := by
      cases A with
      | nil => exact absurd rfl hA
      | cons a A'' =>
        obtain rfl : a = '/' := by
          have := hc1
          rw [hM] at this
          exact (List.cons.injEq .. ▸ this : _ ∧ _).1.symm
        simp [List.count_cons]
    rcases List.eq_nil_or_concat c' with rfl | ⟨c'', z, rfl⟩
    · -- the match ends exactly where the comment starts
      rw [List.append_nil] at hc1
      simp only [List.nil_append] at hc2
      exact ⟨[], by simp [← hc2], .inl rfl⟩
    rw [List.concat_eq_append] at hc1 hc2
    have hzlast : z = '/' := by
      have := hMlast
      rw [hc1, List.getLast?_append_of_ne_nil _ (by simp), List.getLast?_concat,
        Option.some.injEq] at this
      exact this
    subst hzlast
    rcases List.append_eq_append_iff.mp hc2 with ⟨e, he1, he2⟩ | ⟨e, he1, he2⟩
    · -- c'' ++ ['/'] = C ++ e : the matched span swallowed the whole comment
      exfalso
      rw [he1] at hc1
      rw [hc1, List.count_append, List.count_append, hCcount] at hMcount
      omega
    · -- C = (c'' ++ ['/']) ++ e : the matched span ends inside (or at the end of) C
      rcases List.eq_nil_or_concat e with rfl | ⟨e', y, rfl⟩
      · -- e = [] : M = A ++ C
        exfalso
        rw [List.append_nil] at he1
        rw [hc1, ← he1, List.count_append, hCcount] at hMcount
        omega
      · -- e nonempty: c'' ++ ['/'] is a proper prefix of C
        exfalso
        rw [List.concat_eq_append] at he1
        have hylast : y = '/' := by
          have hCl : C.getLast? = some '/' := by
            rw [hC, show '/' :: '*' :: (cmid ++ ['*', '/']) =
              ('/' :: '*' :: cmid ++ ['*']) ++ ['/'] by simp, List.getLast?_concat]
          rw [he1, show c'' ++ ['/'] ++ (e' ++ [y]) = (c'' ++ ['/'] ++ e') ++ [y] by simp,
            List.getLast?_concat, Option.some.injEq] at hCl
          exact hCl
        subst hylast
        have hCsplit : C.count '/' = c''.count '/' + e'.count '/' + 2 := by
          rw [he1]
          simp [List.count_append, List.count_cons]
          omega
        have hc''0 : c''.count '/' = 0 := by omega
        cases c'' with
        | nil =>
          -- M = A ++ ['/'] : then A ends with '*'
          apply hlast
          simp only [List.nil_append] at hc1
          have : A ++ ['/'] = ('/' :: '*' :: mid ++ ['*']) ++ ['/'] := by
            rw [← hc1, hM]; simp
          have hA' : A = '/' :: '*' :: mid ++ ['*'] := List.append_cancel_right this
          rw [hA', List.getLast?_concat]
        | cons w c₀ =>
          obtain rfl : w = '/' := by
            have := he1
            rw [hC] at this
            exact (List.cons.injEq .. ▸ this : _ ∧ _).1.symm
          simp [List.count_cons] at hc''0

/-- Characters of a well-formed filename are not `/`. -/
theorem niceName_ne_slash {f : List Char} (hf : NiceName f) : ∀ c ∈ f, c ≠ '/' := by
  intro c hc
  rcases niceName_chars hf c hc with h | rfl
  · exact (isCls_ne h).1
  · decide

/-- Completeness of the registration scan: whenever the text contains a comment
`/*` ws `f` ws `*/` for a well-formed filename `f`, and the character just in
front of the comment (if any) is not `*` (so that no earlier match can consume
the comment's opening slash), the scan captures `f`. -/
theorem mem_findallF_comment {f : List Char} (hf : NiceName f) {w₁ w₂ : List Char}
    (hw₁ : ∀ c ∈ w₁, isPyWs c = true) (hw₂ : ∀ c ∈ w₂, isPyWs c = true) :
    ∀ fuel A B, (A ++ ('/' :: '*' :: (w₁ ++ f ++ w₂ ++ ['*', '/'])) ++ B).length ≤ fuel →
      (A = [] ∨ A.getLast? ≠ some '*') →
      f ∈ findallF fuel (A ++ ('/' :: '*' :: (w₁ ++ f ++ w₂ ++ ['*', '/'])) ++ B) := by
  intro fuel
  induction fuel with
  | zero =>
    intro A B hlen _
    exfalso
    simp [List.length_append] at hlen
  | succ fuel ih =>
    intro A B hlen hcond
    have hCB : ('/' :: '*' :: (w₁ ++ f ++ w₂ ++ ['*', '/'])) ++ B =
        '/' :: '*' :: (w₁ ++ f ++ w₂ ++ '*' :: '/' :: B) := by simp
    cases A with
    | nil =>
      rw [List.nil_append, hCB, findallF, matchAt_comment hf w₁ w₂ B hw₁ hw₂]
      simp
    | cons a A' =>
      have hlist : (a :: A') ++ ('/' :: '*' :: (w₁ ++ f ++ w₂ ++ ['*', '/'])) ++ B =
          a :: (A' ++ ('/' :: '*' :: (w₁ ++ f ++ w₂ ++ ['*', '/'])) ++ B) := by simp
      rw [hlist, findallF]
      cases hm : matchAt (a :: (A' ++ ('/' :: '*' :: (w₁ ++ f ++ w₂ ++ ['*', '/'])) ++ B)) with
      | none =>
        simp only
        apply ih A' B
        · rw [hlist] at hlen
          simp only [List.length_cons] at hlen
          omega
        · cases hA' : A' with
          | nil => exact .inl rfl
          | cons b l =>
            subst hA'
            refine .inr ?_
            rcases hcond with h | h
            · cases h
            · rwa [List.getLast?_cons_cons] at h
      | some gr =>
        obtain ⟨g, r⟩ := gr
        simp only
        obtain ⟨u₁, s, u₂, hu₁, hs, _, hu₂, _, hleq⟩ := matchAt_some hm
        have hMr : ('/' :: '*' :: ((u₁ ++ s ++ mp3Suffix ++ u₂) ++ ['*', '/'])) ++ r =
            (a :: A') ++ ('/' :: '*' :: (w₁ ++ f ++ w₂ ++ ['*', '/'])) ++ B :=
          calc ('/' :: '*' :: ((u₁ ++ s ++ mp3Suffix ++ u₂) ++ ['*', '/'])) ++ r
              = '/' :: '*' :: (u₁ ++ s ++ mp3Suffix ++ u₂ ++ '*' :: '/' :: r) := by simp
            _ = a :: (A' ++ ('/' :: '*' :: (w₁ ++ f ++ w₂ ++ ['*', '/'])) ++ B) := hleq.symm
            _ = (a :: A') ++ ('/' :: '*' :: (w₁ ++ f ++ w₂ ++ ['*', '/'])) ++ B := by simp
        have hmid : ∀ c ∈ u₁ ++ s ++ mp3Suffix ++ u₂, c ≠ '/' ∧ c ≠ '*' := by
          intro c hc
          rcases List.mem_append.mp hc with hc' | hc'
          · rcases List.mem_append.mp hc' with hc'' | hc''
            · rcases List.mem_append.mp hc'' with h | h
              · exact isPyWs_ne (hu₁ c h)
              · exact isCls_ne (hs c h)
            · simp [mp3Suffix] at hc''
              rcases hc'' with rfl | rfl | rfl | rfl <;> exact ⟨by decide, by decide⟩
          · exact isPyWs_ne (hu₂ c hc')
        have hcmid : ∀ c ∈ w₁ ++ f ++ w₂, c ≠ '/' := by
          intro c hc
          rcases List.mem_append.mp hc with hc' | hc'
          · rcases List.mem_append.mp hc' with h | h
            · exact (isPyWs_ne (hw₁ c h)).1
            · exact niceName_ne_slash hf c h
          · exact (isPyWs_ne (hw₂ c hc')).1
        have hlastA : (a :: A').getLast? ≠ some '*' := by
          rcases hcond with h | h
          · cases h
          · exact h
        obtain ⟨A₂, hr, hcond₂⟩ := match_no_overlap rfl hmid rfl hcmid hMr (by simp) hlastA
        rw [hr]
        apply List.mem_cons_of_mem
        apply ih A₂ B
        · have := congrArg List.length hMr
          simp only [List.length_append, List.length_cons] at this ⊢
          have hrlen := congrArg List.length hr
          simp only [List.length_append, List.length_cons] at hrlen
          rw [hlist] at hlen
          simp only [List.length_cons, List.length_append] at hlen
          omega
        · exact hcond₂


/-- Any text containing the tracked block of a well-formed filename registers
that filename. -/
theorem mem_get_existing_files_tracked {f : List Char} (hf : NiceName f)
    (X Y : List Char) : f ∈ get_existing_files (X ++ trackedBlock f ++ Y) := by
  have hshape : X ++ trackedBlock f ++ Y =
      (X ++ [' ']) ++ ('/' :: '*' :: ([' '] ++ f ++ [' '] ++ ['*', '/'])) ++ (' ' :: Y) := by
    simp [trackedBlock]
  rw [get_existing_files, hshape]
  exact mem_findallF_comment hf (by decide) (by decide) _ (X ++ [' ']) (' ' :: Y) le_rfl
    (.inr (by rw [List.getLast?_concat]; decide))

/-- Soundness of the registration scan: every captured string is a well-formed
filename and occurs as the whole body of a `/* ... */` comment (up to
surrounding whitespace). -/
theorem findallF_sound :
    ∀ fuel l g, g ∈ findallF fuel l →
      NiceName g ∧ ∃ A w₁ w₂ B, (∀ c ∈ w₁, isPyWs c = true) ∧ (∀ c ∈ w₂, isPyWs c = true) ∧
        l = A ++ ('/' :: '*' :: (w₁ ++ g ++ w₂ ++ ['*', '/'])) ++ B := by
  intro fuel
  induction fuel with
  | zero => intro l g h; cases l <;> simp [findallF] at h
  | succ fuel ih =>
    intro l g h
    cases l with
    | nil => simp [findallF] at h
    | cons c rest =>
      rw [findallF] at h
      cases hm : matchAt (c :: rest) with
      | none =>
        rw [hm] at h
        obtain ⟨hg, A, w₁, w₂, B, hw₁, hw₂, hrest⟩ := ih rest g h
        exact ⟨hg, c :: A, w₁, w₂, B, hw₁, hw₂, by rw [hrest]; simp⟩
      | some gr =>
        obtain ⟨g₀, r⟩ := gr
        rw [hm] at h
        obtain ⟨u₁, s, u₂, hu₁, hs, hsne, hu₂, hg₀, hleq⟩ := matchAt_some hm
        rcases List.mem_cons.mp h with rfl | h'
        · refine ⟨⟨s, hsne, hs, hg₀⟩, [], u₁, u₂, r, hu₁, hu₂, ?_⟩
          rw [hleq, hg₀]
          simp
        · obtain ⟨hg, A, w₁, w₂, B, hw₁, hw₂, hr⟩ := ih r g h'
          refine ⟨hg, ('/' :: '*' :: (u₁ ++ s ++ mp3Suffix ++ u₂ ++ ['*', '/'])) ++ A,
            w₁, w₂, B, hw₁, hw₂, ?_⟩
          rw [hleq, hr]
          simp

/-- The matched text of the group pattern: the three literals with the matched
whitespace in between. -/
theorem matchGroupAt_mt {l mt r : List Char} (h : matchGroupAt l = some (mt, r)) :
    ∃ w₁ w₂, mt = groupLit1 ++ w₁ ++ groupLit2 ++ w₂ ++ groupLit3 := by
  unfold matchGroupAt at h
  cases h1 : litThen groupLit1 l with
  | none => rw [h1] at h; cases h
  | some r1 =>
    rw [h1] at h
    simp only at h
    cases h2 : litThen groupLit2 (r1.dropWhile isPyWs) with
    | none => rw [h2] at h; cases h
    | some r2 =>
      rw [h2] at h
      simp only at h
      cases h3 : litThen groupLit3 (r2.dropWhile isPyWs) with
      | none => rw [h3] at h; cases h
      | some r3 =>
        rw [h3] at h
        simp only [Option.some.injEq, Prod.mk.injEq] at h
        exact ⟨r1.takeWhile isPyWs, r2.takeWhile isPyWs, h.1.symm⟩

/-- The matched text of the resources pattern. -/
theorem matchResAt_mt {l mt r : List Char} (h : matchResAt l = some (mt, r)) :
    ∃ w₁ w₂ d w₃, mt = resLit1 ++ w₁ ++ resLit2 ++ w₂ ++ resLit3 ++ d ++ [';'] ++ w₃ ++
      resLit4 := by
  unfold matchResAt at h
  cases h1 : litThen resLit1 l with
  | none => rw [h1] at h; cases h
  | some r1 =>
    rw [h1] at h
    simp only at h
    cases h2 : litThen resLit2 (r1.dropWhile isPyWs) with
    | none => rw [h2] at h; cases h
    | some r2 =>
      rw [h2] at h
      simp only at h
      cases h3 : litThen resLit3 (r2.dropWhile isPyWs) with
      | none => rw [h3] at h; cases h
      | some r3 =>
        rw [h3] at h
        simp only at h
        split at h
        · cases h
        split at h
        case _ r4 hr3 =>
          cases h4 : litThen resLit4 (r4.dropWhile isPyWs) with
          | none => rw [h4] at h; cases h
          | some r5 =>
            rw [h4] at h
            simp only [Option.some.injEq, Prod.mk.injEq] at h
            exact ⟨r1.takeWhile isPyWs, r2.takeWhile isPyWs, r3.takeWhile isAsciiDigit,
              r4.takeWhile isPyWs, h.1.symm⟩
        · cases h

/-- The group-pattern match fails when the first literal is not a prefix. -/
theorem matchGroupAt_none {l : List Char} (h : ¬ groupLit1 <+: l) : matchGroupAt l = none := by
  unfold matchGroupAt litThen
  rw [if_neg (fun hp => h (List.isPrefixOf_iff_prefix.mp hp))]

/-- The resources-pattern match fails when the first literal is not a prefix. -/
theorem matchResAt_none {l : List Char} (h : ¬ resLit1 <+: l) : matchResAt l = none := by
  unfold matchResAt litThen
  rw [if_neg (fun hp => h (List.isPrefixOf_iff_prefix.mp hp))]

/-- Scanning `str.replace` straight through a block in which no occurrence of
`old` starts. -/
theorem scan_through_replace (old new : List Char) :
    ∀ (T B : List Char) fuel, (T ++ B).length ≤ fuel →
      (∀ p, p < T.length → ¬ old <+: (T.drop p ++ B)) →
      replaceAllF old new fuel (T ++ B) = T ++ replaceAllF old new (fuel - T.length) B := by
  intro T
  induction T with
  | nil => intro B fuel _ _; simp
  | cons t T' ih =>
    intro B fuel hlen hsafe
    obtain ⟨fuel', rfl⟩ : ∃ k, fuel = k + 1 := by
      refine ⟨fuel - 1, ?_⟩
      simp [List.length_append] at hlen
      omega
    rw [List.cons_append, replaceAllF,
      if_neg (fun hp => hsafe 0 (by simp)
        (by simpa using List.isPrefixOf_iff_prefix.mp hp))]
    rw [ih B fuel' (by simp [List.length_append] at hlen ⊢; omega)
      (fun p hp => by simpa using hsafe (p + 1) (by simp; omega))]
    simp [Nat.succ_sub_succ]

/-- Scanning `re.sub` straight through a block in which no match starts. -/
theorem scan_through_resub (m : List Char → Option (List Char × List Char)) (ins : List Char) :
    ∀ (T B : List Char) fuel, (T ++ B).length ≤ fuel →
      (∀ p, p < T.length → m (T.drop p ++ B) = none) →
      resubF m ins fuel (T ++ B) = T ++ resubF m ins (fuel - T.length) B := by
  intro T
  induction T with
  | nil => intro B fuel _ _; simp
  | cons t T' ih =>
    intro B fuel hlen hsafe
    obtain ⟨fuel', rfl⟩ : ∃ k, fuel = k + 1 := by
      refine ⟨fuel - 1, ?_⟩
      simp [List.length_append] at hlen
      omega
    rw [List.cons_append, resubF]
    rw [show m (t :: (T' ++ B)) = none by simpa using hsafe 0 (by simp)]
    rw [ih B fuel' (by simp [List.length_append] at hlen ⊢; omega)
      (fun p hp => by simpa using hsafe (p + 1) (by simp; omega))]
    simp [Nat.succ_sub_succ]

/-- `str.replace` with replacement `ins ++ old` keeps a block `T` intact
provided no occurrence of `old` starts strictly inside `T` (it may start in
front of `T`, swallowing it whole into the reproduced `old`, or end before
`T`). -/
theorem replaceAllF_block (old ins T : List Char) (hTne : T ≠ []) (holdne : old ≠ []) :
    ∀ fuel X B, (X ++ T ++ B).length ≤ fuel →
      (∀ p, p < T.length → ¬ old <+: (T.drop p ++ B)) →
      (∀ j P, 0 < j → j < T.length → old ≠ P ++ T.take j) →
      ∃ X' B', replaceAllF old (ins ++ old) fuel (X ++ T ++ B) = X' ++ T ++ B' := by
  have hT1 : 1 ≤ T.length := List.length_pos.mpr hTne
  have hold1 : 1 ≤ old.length := List.length_pos.mpr holdne
  intro fuel
  induction fuel with
  | zero =>
    intro X B hlen _ _
    exfalso
    simp only [List.length_append, Nat.le_zero] at hlen
    omega
  | succ fuel ih =>
    intro X B hlen hsafe hsafe2
    cases X with
    | nil =>
      rw [List.nil_append,
        scan_through_replace old (ins ++ old) T B (fuel + 1) (by simpa using hlen) hsafe]
      exact ⟨[], _, rfl⟩
    | cons x X' =>
      rw [show (x :: X') ++ T ++ B = x :: (X' ++ T ++ B) by simp, replaceAllF]
      by_cases hpre : old.isPrefixOf (x :: (X' ++ T ++ B))
      · rw [if_pos hpre]
        obtain ⟨t, ht⟩ := List.isPrefixOf_iff_prefix.mp hpre
        have hold : old = ((x :: X') ++ T ++ B).take old.length := by
          rw [show (x :: X') ++ T ++ B = x :: (X' ++ T ++ B) by simp, ← ht, List.take_left]
        by_cases hlen2 : old.length ≤ (x :: X').length
        · have hdrop : (x :: (X' ++ T ++ B)).drop old.length =
              (x :: X').drop old.length ++ T ++ B := by
            rw [show x :: (X' ++ T ++ B) = (x :: X') ++ (T ++ B) by simp,
              List.drop_append_of_le_length hlen2, List.append_assoc]
          rw [hdrop]
          obtain ⟨X'', B'', hX⟩ := ih ((x :: X').drop old.length) B
            (by
              simp only [List.length_append, List.length_drop, List.length_cons] at hlen ⊢
              omega)
            hsafe hsafe2
          exact ⟨ins ++ old ++ X'', B'', by rw [hX]; simp⟩
        · push_neg at hlen2
          by_cases hcover : (x :: X').length + T.length ≤ old.length
          · -- `old` swallows the whole of `T`
            have e1 : ((x :: X') ++ T).take old.length = (x :: X') ++ T :=
              List.take_of_length_le (by simp only [List.length_append]; omega)
            have hPQ : old = ((x :: X') ++ T) ++
                B.take (old.length - ((x :: X') ++ T).length) := by
              conv_lhs => rw [hold]
              rw [show (x :: X') ++ T ++ B = ((x :: X') ++ T) ++ B by simp,
                List.take_append_eq_append_take, e1]
            refine ⟨ins ++ (x :: X'), B.take (old.length - ((x :: X') ++ T).length) ++
              replaceAllF old (ins ++ old) fuel ((x :: (X' ++ T ++ B)).drop old.length), ?_⟩
            conv_lhs => rw [show ins ++ old ++ replaceAllF old (ins ++ old) fuel
              ((x :: (X' ++ T ++ B)).drop old.length) = ins ++ old ++ replaceAllF old
              (ins ++ old) fuel ((x :: (X' ++ T ++ B)).drop old.length) from rfl]
            rw [hPQ]
            simp
            omega
          · -- `old` would end strictly inside `T`: impossible
            exfalso
            push_neg at hcover
            apply hsafe2 (old.length - (x :: X').length) (x :: X')
              (by simp only [List.length_cons] at hlen2 ⊢; omega)
              (by simp only [List.length_cons] at hcover ⊢; omega)
            have e1 : (x :: X').take old.length = x :: X' :=
              List.take_of_length_le (by omega)
            have e2 : (T ++ B).take (old.length - (x :: X').length) =
                T.take (old.length - (x :: X').length) :=
              List.take_append_of_le_length (by simp only [List.length_cons] at hcover ⊢; omega)
            conv_lhs => rw [hold]
            rw [show (x :: X') ++ T ++ B = (x :: X') ++ (T ++ B) by simp,
              List.take_append_eq_append_take, e1, e2]
      · rw [if_neg hpre]
        obtain ⟨X'', B'', hX⟩ := ih X' B
          (by simp only [List.length_cons, List.length_append] at hlen ⊢; omega) hsafe hsafe2
        exact ⟨x :: X'', B'', by rw [hX]; simp⟩

/-- `re.sub` with replacement `\1 ++ ins` keeps a block `T` intact provided no
match starts strictly inside `T` and no matched span can end strictly inside
`T` (every matched text ends in `(`, a character `T` does not contain). -/
theorem resubF_block (m : List Char → Option (List Char × List Char)) (ins T : List Char)
    (hTne : T ≠ []) (hTparen : '(' ∉ T)
    (hmsplit : ∀ l mt r, m l = some (mt, r) → l = mt ++ r)
    (hmlast : ∀ l mt r, m l = some (mt, r) → mt.getLast? = some '(') :
    ∀ fuel X B, (X ++ T ++ B).length ≤ fuel →
      (∀ p, p < T.length → m (T.drop p ++ B) = none) →
      ∃ X' B', resubF m ins fuel (X ++ T ++ B) = X' ++ T ++ B' := by
  have hT1 : 1 ≤ T.length := List.length_pos.mpr hTne
  intro fuel
  induction fuel with
  | zero =>
    intro X B hlen _
    exfalso
    simp only [List.length_append, Nat.le_zero] at hlen
    omega
  | succ fuel ih =>
    intro X B hlen hsafe
    cases X with
    | nil =>
      rw [List.nil_append,
        scan_through_resub m ins T B (fuel + 1) (by simpa using hlen) hsafe]
      exact ⟨[], _, rfl⟩
    | cons x X' =>
      rw [show (x :: X') ++ T ++ B = x :: (X' ++ T ++ B) by simp, resubF]
      cases hm : m (x :: (X' ++ T ++ B)) with
      | none =>
        simp only
        obtain ⟨X'', B'', hX⟩ := ih X' B
          (by simp only [List.length_cons, List.length_append] at hlen ⊢; omega) hsafe
        exact ⟨x :: X'', B'', by rw [hX]; simp⟩
      | some p =>
        obtain ⟨mt, r⟩ := p
        simp only
        have hsp := hmsplit _ _ _ hm
        have hlast := hmlast _ _ _ hm
        have hmtne : mt ≠ [] := by
          intro h
          rw [h] at hlast
          simp at hlast
        have hmt1 : 1 ≤ mt.length := List.length_pos.mpr hmtne
        have hmt : mt = ((x :: X') ++ T ++ B).take mt.length := by
          rw [show (x :: X') ++ T ++ B = x :: (X' ++ T ++ B) by simp, hsp, List.take_left]
        have hr : r = ((x :: X') ++ T ++ B).drop mt.length := by
          rw [show (x :: X') ++ T ++ B = x :: (X' ++ T ++ B) by simp, hsp, List.drop_left]
        by_cases hlen2 : mt.length ≤ (x :: X').length
        · -- the match ends inside the prefix
          have hrX : r = (x :: X').drop mt.length ++ T ++ B := by
            rw [hr, show (x :: X') ++ T ++ B = (x :: X') ++ (T ++ B) by simp,
              List.drop_append_of_le_length hlen2, List.append_assoc]
          obtain ⟨X'', B'', hX⟩ := ih ((x :: X').drop mt.length) B
            (by
              simp only [List.length_append, List.length_drop, List.length_cons] at hlen ⊢
              omega)
            hsafe
          exact ⟨mt ++ ins ++ X'', B'', by rw [hrX, hX]; simp⟩
        · push_neg at hlen2
          by_cases hcover : (x :: X').length + T.length ≤ mt.length
          · -- the matched span swallows the whole of `T`
            have e1 : ((x :: X') ++ T).take mt.length = (x :: X') ++ T :=
              List.take_of_length_le (by simp only [List.length_append]; omega)
            have hPQ : mt = ((x :: X') ++ T) ++
                B.take (mt.length - ((x :: X') ++ T).length) := by
              conv_lhs => rw [hmt]
              rw [show (x :: X') ++ T ++ B = ((x :: X') ++ T) ++ B by simp,
                List.take_append_eq_append_take, e1]
            refine ⟨x :: X', B.take (mt.length - ((x :: X') ++ T).length) ++ ins ++
              resubF m ins fuel r, ?_⟩
            conv_lhs => rw [hPQ]
            simp
          · -- the matched span would end strictly inside `T`: impossible
            exfalso
            push_neg at hcover
            have e1 : (x :: X').take mt.length = x :: X' :=
              List.take_of_length_le (by omega)
            have e2 : (T ++ B).take (mt.length - (x :: X').length) =
                T.take (mt.length - (x :: X').length) :=
              List.take_append_of_le_length (by simp only [List.length_cons] at hcover ⊢; omega)
            have hmt' : mt = (x :: X') ++ T.take (mt.length - (x :: X').length) := by
              conv_lhs => rw [hmt]
              rw [show (x :: X') ++ T ++ B = (x :: X') ++ (T ++ B) by simp,
                List.take_append_eq_append_take, e1, e2]
            have htk : (T.take (mt.length - (x :: X').length)).getLast? = some '(' := by
              rw [hmt', List.getLast?_append_of_ne_nil] at hlast
              · exact hlast
              · intro h
                rw [h, List.append_nil] at hmt'
                have hlen3 := congrArg List.length hmt'
                simp only [List.length_cons] at hlen3 hlen2
                omega
            apply hTparen
            exact List.mem_of_mem_take (List.mem_of_mem_getLast? htk)


/-- A literal beginning with hexadecimal characters followed by a space can
never be a prefix of a class-character run followed by a dot: the space can
match neither a class character nor the dot, and a hex character cannot match
the dot. -/
theorem hexsp_not_prefix :
    ∀ (s hex lt R : List Char), (∀ c ∈ hex, isHexUp c = true) →
      (∀ c ∈ s, isCls c = true) → ¬ ((hex ++ ' ' :: lt) <+: (s ++ '.' :: R)) := by
  intro s
  induction s with
  | nil =>
    intro hex lt R hhex _ hpre
    cases hex with
    | nil =>
      simp only [List.nil_append] at hpre
      exact absurd (List.cons_prefix_cons.mp hpre).1 (by decide)
    | cons h hx =>
      rw [List.cons_append, List.nil_append] at hpre
      obtain ⟨rfl, _⟩ := List.cons_prefix_cons.mp hpre
      have := hhex '.' (by simp)
      simp [isHexUp] at this
  | cons c s' ih =>
    intro hex lt R hhex hcls hpre
    cases hex with
    | nil =>
      simp only [List.nil_append, List.cons_append] at hpre
      obtain ⟨h1, _⟩ := List.cons_prefix_cons.mp hpre
      have := hcls c (by simp)
      rw [← h1] at this
      simp [isCls] at this
    | cons h hx =>
      rw [List.cons_append, List.cons_append] at hpre
      obtain ⟨rfl, h2⟩ := List.cons_prefix_cons.mp hpre
      exact ih hx lt R (fun d hd => hhex d (by simp [hd])) (fun d hd => hcls d (by simp [hd])) h2

/-- Enumeration of the suffixes of the tracked block: dropping `p < length`
characters and appending `B` yields one of nine head shapes. -/
theorem trackedBlock_drop_form {f stem : List Char} (hstem : f = stem ++ mp3Suffix)
    (p : Nat) (hp : p < (trackedBlock f).length) (B : List Char) :
    (∃ X, (trackedBlock f).drop p ++ B = ' ' :: X) ∨
    (∃ X, (trackedBlock f).drop p ++ B = '*' :: X) ∨
    ((trackedBlock f).drop p ++ B = '/' :: '*' :: ' ' :: (f ++ [' ', '*', '/', ' '] ++ B)) ∨
    ((trackedBlock f).drop p ++ B = '/' :: ' ' :: B) ∨
    (∃ k, k < stem.length ∧ (trackedBlock f).drop p ++ B =
      stem.drop k ++ '.' :: 'm' :: 'p' :: '3' :: ' ' :: '*' :: '/' :: ' ' :: B) ∨
    (∃ X, (trackedBlock f).drop p ++ B = '.' :: X) ∨
    (∃ X, (trackedBlock f).drop p ++ B = 'm' :: X) ∨
    (∃ X, (trackedBlock f).drop p ++ B = 'p' :: X) ∨
    ((trackedBlock f).drop p ++ B = '3' :: ' ' :: '*' :: '/' :: ' ' :: B) := by
  have hlen : (trackedBlock f).length = stem.length + 12 := by
    simp [trackedBlock, hstem, mp3Suffix]
  have hT : trackedBlock f =
      ' ' :: '/' :: '*' :: ' ' :: (stem ++ ('.' :: 'm' :: 'p' :: '3' :: [' ', '*', '/', ' '])) := by
    simp [trackedBlock, hstem, mp3Suffix]
  have hcase : p = 0 ∨ p = 1 ∨ p = 2 ∨ p = 3 ∨ (∃ k, k < stem.length ∧ p = 4 + k) ∨
      p = 4 + stem.length ∨ p = 5 + stem.length ∨ p = 6 + stem.length ∨
      p = 7 + stem.length ∨ p = 8 + stem.length ∨ p = 9 + stem.length ∨
      p = 10 + stem.length ∨ p = 11 + stem.length := by
    rw [hlen] at hp
    by_cases h4 : p < 4
    · omega
    · by_cases hst : p < 4 + stem.length
      · exact .inr (.inr (.inr (.inr (.inl ⟨p - 4, by omega, by omega⟩))))
      · omega
  have hdropstem : ∀ i, (stem ++ ('.' :: 'm' :: 'p' :: '3' :: [' ', '*', '/', ' '])).drop
      (stem.length + i) = ('.' :: 'm' :: 'p' :: '3' :: [' ', '*', '/', ' ']).drop i := by
    intro i
    rw [List.drop_append_eq_append_drop, List.drop_of_length_le (by omega)]
    simp
  rcases hcase with rfl | rfl | rfl | rfl | ⟨k, hk, rfl⟩ | rfl | rfl | rfl | rfl | rfl | rfl
    | rfl | rfl
  · have hx : (trackedBlock f).drop 0 ++ B =
        ' ' :: ('/' :: '*' :: ' ' :: (stem ++ '.' :: 'm' :: 'p' :: '3' :: ' ' :: '*' :: '/' :: ' ' :: B)) := by
      rw [hT]; simp
    exact .inl ⟨_, hx⟩
  · refine .inr (.inr (.inl ?_))
    rw [hT, hstem]
    simp [mp3Suffix]
  · have hx : (trackedBlock f).drop 2 ++ B =
        '*' :: (' ' :: (stem ++ '.' :: 'm' :: 'p' :: '3' :: ' ' :: '*' :: '/' :: ' ' :: B)) := by
      rw [hT]; simp
    exact .inr (.inl ⟨_, hx⟩)
  · have hx : (trackedBlock f).drop 3 ++ B =
        ' ' :: (stem ++ '.' :: 'm' :: 'p' :: '3' :: ' ' :: '*' :: '/' :: ' ' :: B) := by
      rw [hT]; simp
    exact .inl ⟨_, hx⟩
  · refine .inr (.inr (.inr (.inr (.inl ⟨k, hk, ?_⟩))))
    rw [hT, show 4 + k = k + 4 by omega]
    simp only [List.drop_succ_cons]
    rw [List.drop_append_of_le_length (by omega)]
    simp
  · have hx : (trackedBlock f).drop (4 + stem.length) ++ B =
        '.' :: ('m' :: 'p' :: '3' :: ' ' :: '*' :: '/' :: ' ' :: B) := by
      rw [hT, show 4 + stem.length = stem.length + 4 by omega]
      simp only [List.drop_succ_cons]
      rw [show stem.length = stem.length + 0 by omega, hdropstem 0]
      simp
    exact .inr (.inr (.inr (.inr (.inr (.inl ⟨_, hx⟩)))))
  · have hx : (trackedBlock f).drop (5 + stem.length) ++ B =
        'm' :: ('p' :: '3' :: ' ' :: '*' :: '/' :: ' ' :: B) := by
      rw [hT, show 5 + stem.length = (stem.length + 1) + 4 by omega]
      simp only [List.drop_succ_cons]
      rw [hdropstem 1]
      simp
    exact .inr (.inr (.inr (.inr (.inr (.inr (.inl ⟨_, hx⟩))))))
  · have hx : (trackedBlock f).drop (6 + stem.length) ++ B =
        'p' :: ('3' :: ' ' :: '*' :: '/' :: ' ' :: B) := by
      rw [hT, show 6 + stem.length = (stem.length + 2) + 4 by omega]
      simp only [List.drop_succ_cons]
      rw [hdropstem 2]
      simp
    exact .inr (.inr (.inr (.inr (.inr (.inr (.inr (.inl ⟨_, hx⟩)))))))
  · refine .inr (.inr (.inr (.inr (.inr (.inr (.inr (.inr ?_)))))))
    rw [hT, show 7 + stem.length = (stem.length + 3) + 4 by omega]
    simp only [List.drop_succ_cons]
    rw [hdropstem 3]
    simp
  · have hx : (trackedBlock f).drop (8 + stem.length) ++ B =
        ' ' :: ('*' :: '/' :: ' ' :: B) := by
      rw [hT, show 8 + stem.length = (stem.length + 4) + 4 by omega]
      simp only [List.drop_succ_cons]
      rw [hdropstem 4]
      simp
    exact .inl ⟨_, hx⟩
  · have hx : (trackedBlock f).drop (9 + stem.length) ++ B = '*' :: ('/' :: ' ' :: B) := by
      rw [hT, show 9 + stem.length = (stem.length + 5) + 4 by omega]
      simp only [List.drop_succ_cons]
      rw [hdropstem 5]
      simp
    exact .inr (.inl ⟨_, hx⟩)
  · refine .inr (.inr (.inr (.inl ?_)))
    rw [hT, show 10 + stem.length = (stem.length + 6) + 4 by omega]
    simp only [List.drop_succ_cons]
    rw [hdropstem 6]
    simp
  · have hx : (trackedBlock f).drop (11 + stem.length) ++ B = ' ' :: B := by
      rw [hT, show 11 + stem.length = (stem.length + 7) + 4 by omega]
      simp only [List.drop_succ_cons]
      rw [hdropstem 7]
      simp
    exact .inl ⟨_, hx⟩

/-- No occurrence of the BuildFile section-end marker starts inside a tracked
block. -/
theorem marker2_safe_tracked {f : List Char} (hf : NiceName f) :
    ∀ p B, p < (trackedBlock f).length → ¬ marker2 <+: ((trackedBlock f).drop p ++ B) := by
  obtain ⟨stem, hne, hcls, hstem⟩ := hf
  have hm2 : marker2 = '/' :: '*' :: ' ' :: 'E' :: 'n' :: 'd' :: ' ' ::
      "PBXBuildFile section */".data := by decide
  have hflen : 4 ≤ f.length := by
    rw [hstem]
    simp [mp3Suffix]
  intro p B hp hpre
  rcases trackedBlock_drop_form hstem p hp B with
    ⟨X, hX⟩ | ⟨X, hX⟩ | hX | hX | ⟨k, hk, hX⟩ | ⟨X, hX⟩ | ⟨X, hX⟩ | ⟨X, hX⟩ | hX
  · rw [hX, hm2] at hpre
    exact absurd (List.cons_prefix_cons.mp hpre).1 (by decide)
  · rw [hX, hm2] at hpre
    exact absurd (List.cons_prefix_cons.mp hpre).1 (by decide)
  · rw [hX, hm2] at hpre
    obtain ⟨-, hpre⟩ := List.cons_prefix_cons.mp hpre
    obtain ⟨-, hpre⟩ := List.cons_prefix_cons.mp hpre
    obtain ⟨-, hpre⟩ := List.cons_prefix_cons.mp hpre
    obtain ⟨t, ht⟩ := hpre
    have htake := congrArg (List.take 4) ht
    rw [show ('E' :: 'n' :: 'd' :: ' ' :: "PBXBuildFile section */".data ++ t) =
      'E' :: 'n' :: 'd' :: ' ' :: ("PBXBuildFile section */".data ++ t) by simp,
      show f ++ [' ', '*', '/', ' '] ++ B = f ++ ([' ', '*', '/', ' '] ++ B) by simp,
      List.take_append_of_le_length hflen] at htake
    have hsp : ' ' ∈ f.take 4 := by
      rw [← htake]
      simp
    rcases niceName_chars ⟨stem, hne, hcls, hstem⟩ ' ' (List.mem_of_mem_take hsp) with h | h
    · simp [isCls] at h
    · exact absurd h (by decide)
  · rw [hX, hm2] at hpre
    obtain ⟨-, hpre⟩ := List.cons_prefix_cons.mp hpre
    exact absurd (List.cons_prefix_cons.mp hpre).1 (by decide)
  · rw [hX, hm2] at hpre
    obtain ⟨c, rest, hdrop⟩ : ∃ c rest, stem.drop k = c :: rest := by
      cases hd : stem.drop k with
      | nil =>
        have := congrArg List.length hd
        simp at this
        omega
      | cons c rest => exact ⟨c, rest, rfl⟩
    rw [hdrop, List.cons_append] at hpre
    obtain ⟨h1, -⟩ := List.cons_prefix_cons.mp hpre
    have hcmem : c ∈ stem := List.mem_of_mem_drop (hdrop ▸ List.mem_cons_self c rest)
    have := hcls c hcmem
    rw [← h1] at this
    simp [isCls] at this
  · rw [hX, hm2] at hpre
    exact absurd (List.cons_prefix_cons.mp hpre).1 (by decide)
  · rw [hX, hm2] at hpre
    exact absurd (List.cons_prefix_cons.mp hpre).1 (by decide)
  · rw [hX, hm2] at hpre
    exact absurd (List.cons_prefix_cons.mp hpre).1 (by decide)
  · rw [hX, hm2] at hpre
    exact absurd (List.cons_prefix_cons.mp hpre).1 (by decide)

/-- A literal that starts with `4`, opens with a hexadecimal run, and then has a
space, never occurs starting inside a tracked block. -/
theorem lit_safe_tracked {lit hex lt lt0 : List Char} (hdec : lit = hex ++ ' ' :: lt)
    (hhex : ∀ c ∈ hex, isHexUp c = true) (h4 : lit = '4' :: lt0)
    {f : List Char} (hf : NiceName f) :
    ∀ p B, p < (trackedBlock f).length → ¬ lit <+: ((trackedBlock f).drop p ++ B) := by
  obtain ⟨stem, hne, hcls, hstem⟩ := hf
  intro p B hp hpre
  rcases trackedBlock_drop_form hstem p hp B with
    ⟨X, hX⟩ | ⟨X, hX⟩ | hX | hX | ⟨k, hk, hX⟩ | ⟨X, hX⟩ | ⟨X, hX⟩ | ⟨X, hX⟩ | hX
  · rw [hX, h4] at hpre
    exact absurd (List.cons_prefix_cons.mp hpre).1 (by decide)
  · rw [hX, h4] at hpre
    exact absurd (List.cons_prefix_cons.mp hpre).1 (by decide)
  · rw [hX, h4] at hpre
    exact absurd (List.cons_prefix_cons.mp hpre).1 (by decide)
  · rw [hX, h4] at hpre
    exact absurd (List.cons_prefix_cons.mp hpre).1 (by decide)
  · rw [hX, hdec] at hpre
    exact hexsp_not_prefix (stem.drop k) hex lt _ hhex
      (fun c hc => hcls c (List.mem_of_mem_drop hc)) hpre
  · rw [hX, h4] at hpre
    exact absurd (List.cons_prefix_cons.mp hpre).1 (by decide)
  · rw [hX, h4] at hpre
    exact absurd (List.cons_prefix_cons.mp hpre).1 (by decide)
  · rw [hX, h4] at hpre
    exact absurd (List.cons_prefix_cons.mp hpre).1 (by decide)
  · rw [hX, h4] at hpre
    exact absurd (List.cons_prefix_cons.mp hpre).1 (by decide)

/-- No group-pattern match starts inside a tracked block. -/
theorem matchGroupAt_safe_tracked {f : List Char} (hf : NiceName f) :
    ∀ p B, p < (trackedBlock f).length →
      matchGroupAt ((trackedBlock f).drop p ++ B) = none := fun p B hp =>
  matchGroupAt_none (@lit_safe_tracked groupLit1 ("469C33ED2F07DD48002E908D".data)
    ("/* Audio */ = \x7b".data) ("69C33ED2F07DD48002E908D /* Audio */ = \x7b".data)
    (by decide) (by decide) (by decide) f hf p B hp)

/-- No resources-pattern match starts inside a tracked block. -/
theorem matchResAt_safe_tracked {f : List Char} (hf : NiceName f) :
    ∀ p B, p < (trackedBlock f).length →
      matchResAt ((trackedBlock f).drop p ++ B) = none := fun p B hp =>
  matchResAt_none (@lit_safe_tracked resLit1 ("46B7609C2F024AD600F1A587".data)
    ("/* Resources */ = \x7b".data)
    ("6B7609C2F024AD600F1A587 /* Resources */ = \x7b".data)
    (by decide) (by decide) (by decide) f hf p B hp)

/-- No occurrence of the BuildFile section-end marker ends strictly inside a
tracked block. -/
theorem marker2_safe2_tracked (f : List Char) :
    ∀ j P, 0 < j → j < (trackedBlock f).length → marker2 ≠ P ++ (trackedBlock f).take j := by
  intro j P hj hjlen heq
  rcases Nat.eq_or_lt_of_le hj with hj1 | hj2
  · -- j = 1 : marker2 would end with a space
    rw [← hj1] at heq
    rw [show (trackedBlock f).take 1 = [' '] by simp [trackedBlock]] at heq
    have h := congrArg List.getLast? heq
    rw [List.getLast?_concat, show marker2.getLast? = some '/' by decide] at h
    exact absurd h (by decide)
  · -- j ≥ 2 : marker2 would contain the two adjacent characters space-slash
    have htake2 : (trackedBlock f).take j =
        ' ' :: '/' :: (('*' :: ' ' :: (f ++ [' ', '*', '/', ' '])).take (j - 2)) := by
      obtain ⟨k, rfl⟩ : ∃ k, j = k + 2 := ⟨j - 2, by omega⟩
      simp [trackedBlock]
    have hinf : [' ', '/'] <:+: marker2 :=
      ⟨P, ('*' :: ' ' :: (f ++ [' ', '*', '/', ' '])).take (j - 2), by
        rw [heq, htake2]; simp⟩
    exact absurd hinf (by decide)

/-- Membership in the missing list. -/
theorem mem_missingOf {content : List Char} {dirFiles : List (List Char)} {f : List Char} :
    f ∈ missingOf content dirFiles ↔
      f ∈ get_audio_files dirFiles ∧ f ∉ get_existing_files content := by
  unfold missingOf
  rw [List.mem_filter]
  simp [List.elem_iff]

/-- The early-return branch of `main`: nothing missing means no write, the
original bytes, and the already-synced message. -/
theorem runMain_empty {content : List Char} {dirFiles : List (List Char)}
    (h : missingOf content dirFiles = []) :
    runMain content dirFiles = ⟨content, false, [allSyncedMsg]⟩ := by
  unfold runMain
  rw [if_pos (by simp [h])]

/-- The patching branch of `main`: the final text is the result of the four
splices, in source order. -/
theorem runMain_text {content : List Char} {dirFiles : List (List Char)}
    (h : missingOf content dirFiles ≠ []) :
    (runMain content dirFiles).text =
      pyResub matchResAt ('\n' :: joinNL ((missingOf content dirFiles).map phaseEntryLine))
        (pyResub matchGroupAt
          ('\n' :: joinNL ((missingOf content dirFiles).map groupChildLine))
          (pyReplace
            (pyReplace content marker1
              (joinNL ((missingOf content dirFiles).map fileRefLine) ++ '\n' :: marker1))
            marker2
            (joinNL ((missingOf content dirFiles).map buildFileLine) ++ '\n' :: marker2))) := by
  unfold runMain
  rw [if_neg (by simp [h])]

/-- The patching branch of `main`: wrote flag and messages. -/
theorem runMain_wrote_messages {content : List Char} {dirFiles : List (List Char)}
    (h : missingOf content dirFiles ≠ []) :
    (runMain content dirFiles).wrote = true ∧
    (runMain content dirFiles).messages =
      foundMsg (missingOf content dirFiles).length ::
        (missingOf content dirFiles).map itemMsg ++ (missingOf content dirFiles).map genMsg ++
        [successMsg (missingOf content dirFiles).length, rebuildMsg] := by
  unfold runMain
  rw [if_neg (by simp [h])]
  exact ⟨rfl, rfl⟩

/-- `str.replace` with an occurrence present inserts the new text somewhere. -/
theorem replaceAllF_insert (old ins : List Char) (hold : old ≠ []) :
    ∀ fuel l, l.length ≤ fuel → Occurs old l →
      ∃ X Y, replaceAllF old (ins ++ old) fuel l = X ++ ins ++ Y := by
  intro fuel
  induction fuel with
  | zero =>
    intro l hlen hocc
    obtain ⟨A, B, rfl⟩ := hocc
    exfalso
    have h1 : 1 ≤ old.length := List.length_pos.mpr hold
    simp only [List.length_append, Nat.le_zero] at hlen
    omega
  | succ fuel ih =>
    intro l hlen hocc
    cases l with
    | nil =>
      obtain ⟨A, B, hAB⟩ := hocc
      exact absurd (by simpa using congrArg List.length hAB)
        (by have : 1 ≤ old.length := List.length_pos.mpr hold; omega)
    | cons c rest =>
      rw [replaceAllF]
      by_cases hpre : old.isPrefixOf (c :: rest)
      · rw [if_pos hpre]
        exact ⟨[], old ++ replaceAllF old (ins ++ old) fuel ((c :: rest).drop old.length),
          by simp⟩
      · rw [if_neg hpre]
        obtain ⟨A, B, hAB⟩ := hocc
        cases A with
        | nil =>
          exfalso
          apply hpre
          rw [List.isPrefixOf_iff_prefix]
          exact ⟨B, by simpa using hAB.symm⟩
        | cons a A' =>
          obtain ⟨rfl, hrest⟩ : c = a ∧ rest = A' ++ old ++ B := by
            have := hAB
            simp only [List.cons_append, List.cons.injEq] at this
            exact this
          obtain ⟨X, Y, hXY⟩ := ih rest (by simp at hlen; omega) ⟨A', B, hrest⟩
          exact ⟨c :: X, Y, by rw [hXY]; simp⟩

/-- Every member of a joined line list occurs inside the join. -/
theorem joinNL_decomp {x : List Char} :
    ∀ {ls : List (List Char)}, x ∈ ls → ∃ C D, joinNL ls = C ++ x ++ D := by
  intro ls
  induction ls with
  | nil => intro h; cases h
  | cons y ys ih =>
    intro h
    rcases List.mem_cons.mp h with rfl | h'
    · cases ys with
      | nil => exact ⟨[], [], by simp [joinNL]⟩
      | cons z zs => exact ⟨[], '\n' :: joinNL (z :: zs), by rw [joinNL]; simp⟩
    · obtain ⟨C, D, hCD⟩ := ih h'
      cases ys with
      | nil => cases h'
      | cons z zs =>
        exact ⟨y ++ '\n' :: C, D, by rw [joinNL, hCD]; simp⟩

/-- The reference line decomposes around the tracked block. -/
theorem fileRefLine_decomp (f : List Char) :
    fileRefLine f = ("\t\t".data ++ generate_uuid ("fileref_".data ++ f ++ "_v2".data)) ++
      trackedBlock f ++
      ("= \x7bisa = PBXFileReference; lastKnownFileType = audio.mp3; path = ".data ++ f ++
        "; sourceTree = \"<group>\"; \x7d;".data) := by
  rw [fileRefLine, trackedBlock]
  rw [show " /* ".data = [' ', '/', '*', ' '] by decide,
    show (" */ = \x7bisa = PBXFileReference; lastKnownFileType = audio.mp3; path = ").data =
      [' ', '*', '/', ' '] ++
        "= \x7bisa = PBXFileReference; lastKnownFileType = audio.mp3; path = ".data by decide]
  simp

/-- `(` does not occur in a tracked block. -/
theorem paren_not_mem_tracked {f : List Char} (hf : NiceName f) : '(' ∉ trackedBlock f := by
  intro h
  rw [trackedBlock] at h
  simp only [List.mem_cons, List.mem_append] at h
  rcases h with h | h | h | h | h | h
  · exact absurd h (by decide)
  · exact absurd h (by decide)
  · exact absurd h (by decide)
  · exact absurd h (by decide)
  · rcases niceName_chars hf '(' h with h' | h'
    · simp [isCls] at h'
    · exact absurd h' (by decide)
  · exact absurd h (by decide)

/-- The group-pattern matched text ends in `(`. -/
theorem matchGroupAt_last {l mt r : List Char} (h : matchGroupAt l = some (mt, r)) :
    mt.getLast? = some '(' := by
  obtain ⟨w₁, w₂, rfl⟩ := matchGroupAt_mt h
  rw [List.append_assoc, List.append_assoc, List.append_assoc,
    List.getLast?_append_of_ne_nil _ (by simp [groupLit3]),
    List.getLast?_append_of_ne_nil _ (by simp [groupLit3]),
    List.getLast?_append_of_ne_nil _ (by simp [groupLit3]),
    List.getLast?_append_of_ne_nil _ (by simp [groupLit3])]
  decide

/-- The resources-pattern matched text ends in `(`. -/
theorem matchResAt_last {l mt r : List Char} (h : matchResAt l = some (mt, r)) :
    mt.getLast? = some '(' := by
  obtain ⟨w₁, w₂, d, w₃, rfl⟩ := matchResAt_mt h
  rw [List.append_assoc, List.append_assoc, List.append_assoc, List.append_assoc,
    List.append_assoc, List.append_assoc, List.append_assoc]
  rw [List.getLast?_append_of_ne_nil _ (by simp [resLit4])]
  rw [List.getLast?_append_of_ne_nil _ (by simp [resLit4])]
  rw [List.getLast?_append_of_ne_nil _ (by simp [resLit4])]
  rw [List.getLast?_append_of_ne_nil _ (by simp [resLit4])]
  rw [List.getLast?_append_of_ne_nil _ (by simp [resLit4])]
  rw [List.getLast?_append_of_ne_nil _ (by simp [resLit4])]
  rw [List.getLast?_append_of_ne_nil _ (by simp [resLit4])]
  rw [List.getLast?_append_of_ne_nil _ (by simp [resLit4])]
  decide

/-- After one patching run with the FileReference section-end marker present,
every missing well-formed filename is registered in the resulting manifest
text: its reference line is spliced in at the marker, and the later splices
cannot break the comment `/* f */` inside that line. -/
theorem registered_after_run {content : List Char} {dirFiles : List (List Char)}
    {f : List Char} (hf : NiceName f) (hm1 : Occurs marker1 content)
    (hmiss : f ∈ missingOf content dirFiles) :
    f ∈ get_existing_files ((runMain content dirFiles).text) := by
  have hne : missingOf content dirFiles ≠ [] := fun h => by rw [h] at hmiss; cases hmiss
  have hTne : trackedBlock f ≠ [] := by rw [trackedBlock]; simp
  rw [runMain_text hne]
  -- step 1: the reference lines are spliced in somewhere
  obtain ⟨X₁, Y₁, hc1⟩ : ∃ X₁ Y₁,
      pyReplace content marker1
        (joinNL ((missingOf content dirFiles).map fileRefLine) ++ '\n' :: marker1) =
      X₁ ++ trackedBlock f ++ Y₁ := by
    rw [show joinNL ((missingOf content dirFiles).map fileRefLine) ++ '\n' :: marker1 =
      (joinNL ((missingOf content dirFiles).map fileRefLine) ++ ['\n']) ++ marker1 by simp,
      pyReplace]
    obtain ⟨X, Y, hXY⟩ := replaceAllF_insert marker1
      (joinNL ((missingOf content dirFiles).map fileRefLine) ++ ['\n'])
      (by decide) content.length content le_rfl hm1
    obtain ⟨C, D, hCD⟩ := joinNL_decomp (List.mem_map_of_mem fileRefLine hmiss)
    rw [fileRefLine_decomp] at hCD
    refine ⟨X ++ C ++ ("\t\t".data ++ generate_uuid ("fileref_".data ++ f ++ "_v2".data)),
      ("= \x7bisa = PBXFileReference; lastKnownFileType = audio.mp3; path = ".data ++ f ++
        "; sourceTree = \"<group>\"; \x7d;".data) ++ D ++ '\n' :: Y, ?_⟩
    rw [hXY, hCD]
    simp
  rw [hc1]
  -- step 2: the BuildFile splice keeps the tracked block intact
  obtain ⟨X₂, Y₂, hc2⟩ :=
    replaceAllF_block marker2
      (joinNL ((missingOf content dirFiles).map buildFileLine) ++ ['\n'])
      (trackedBlock f) hTne (by decide) (X₁ ++ trackedBlock f ++ Y₁).length X₁ Y₁ le_rfl
      (fun p hp => marker2_safe_tracked hf p Y₁ hp)
      (fun j P hj hjl => marker2_safe2_tracked f j P hj hjl)
  rw [show joinNL ((missingOf content dirFiles).map buildFileLine) ++ '\n' :: marker2 =
    (joinNL ((missingOf content dirFiles).map buildFileLine) ++ ['\n']) ++ marker2 by simp,
    pyReplace, hc2]
  -- step 3: the group splice keeps the tracked block intact
  obtain ⟨X₃, Y₃, hc3⟩ :=
    resubF_block matchGroupAt
      ('\n' :: joinNL ((missingOf content dirFiles).map groupChildLine))
      (trackedBlock f) hTne (paren_not_mem_tracked hf)
      (fun l mt r h => matchGroupAt_eq_append h)
      (fun l mt r h => matchGroupAt_last h)
      (X₂ ++ trackedBlock f ++ Y₂).length X₂ Y₂ le_rfl
      (fun p hp => matchGroupAt_safe_tracked hf p Y₂ hp)
  have hc3' : pyResub matchGroupAt
      ('\n' :: joinNL ((missingOf content dirFiles).map groupChildLine))
      (X₂ ++ trackedBlock f ++ Y₂) = X₃ ++ trackedBlock f ++ Y₃ := by
    rw [pyResub]; exact hc3
  rw [hc3']
  -- step 4: the resources splice keeps the tracked block intact
  obtain ⟨X₄, Y₄, hc4⟩ :=
    resubF_block matchResAt
      ('\n' :: joinNL ((missingOf content dirFiles).map phaseEntryLine))
      (trackedBlock f) hTne (paren_not_mem_tracked hf)
      (fun l mt r h => matchResAt_eq_append h)
      (fun l mt r h => matchResAt_last h)
      (X₃ ++ trackedBlock f ++ Y₃).length X₃ Y₃ le_rfl
      (fun p hp => matchResAt_safe_tracked hf p Y₃ hp)
  have hc4' : pyResub matchResAt
      ('\n' :: joinNL ((missingOf content dirFiles).map phaseEntryLine))
      (X₃ ++ trackedBlock f ++ Y₃) = X₄ ++ trackedBlock f ++ Y₄ := by
    rw [pyResub]; exact hc4
  rw [hc4']
  exact mem_get_existing_files_tracked hf X₄ Y₄

section

open List

/-- Replacement with `ins ++ old` only inserts: the original text is a
subsequence of the result. -/
theorem replaceAllF_sublist (old ins : List Char) :
    ∀ fuel l, l <+ replaceAllF old (ins ++ old) fuel l := by
  intro fuel
  induction fuel with
  | zero => intro l; cases l <;> simp [replaceAllF]
  | succ fuel ih =>
    intro l
    cases l with
    | nil => simp [replaceAllF]
    | cons c rest =>
      rw [replaceAllF]
      by_cases hpre : old.isPrefixOf (c :: rest)
      · rw [if_pos hpre]
        obtain ⟨t, ht⟩ := List.isPrefixOf_iff_prefix.mp hpre
        have hdrop : (c :: rest).drop old.length = t := by rw [← ht, List.drop_left]
        calc c :: rest = old ++ t := ht.symm
          _ <+ old ++ replaceAllF old (ins ++ old) fuel t := (ih t).append_left old
          _ <+ ins ++ (old ++ replaceAllF old (ins ++ old) fuel t) :=
            List.sublist_append_right _ _
          _ = ins ++ old ++ replaceAllF old (ins ++ old) fuel ((c :: rest).drop old.length) := by
            rw [hdrop, List.append_assoc]
      · rw [if_neg hpre]
        exact (ih rest).cons₂ c

/-- `re.sub` with replacement `\1 ++ ins` only inserts. -/
theorem resubF_sublist (m : List Char → Option (List Char × List Char)) (ins : List Char)
    (hmsplit : ∀ l mt r, m l = some (mt, r) → l = mt ++ r) :
    ∀ fuel l, l <+ resubF m ins fuel l := by
  intro fuel
  induction fuel with
  | zero => intro l; cases l <;> simp [resubF]
  | succ fuel ih =>
    intro l
    cases l with
    | nil => simp [resubF]
    | cons c rest =>
      rw [resubF]
      cases hm : m (c :: rest) with
      | none => exact (ih rest).cons₂ c
      | some p =>
        obtain ⟨mt, r⟩ := p
        calc c :: rest = mt ++ r := hmsplit _ _ _ hm
          _ <+ mt ++ (ins ++ resubF m ins fuel r) :=
            ((ih r).trans (List.sublist_append_right ins _)).append_left mt
          _ = mt ++ ins ++ resubF m ins fuel r := by rw [List.append_assoc]

/-- Replacement with `ins ++ old` preserves the presence of `old`. -/
theorem replaceAllF_keeps (old ins : List Char) :
    ∀ fuel l, Occurs old l → Occurs old (replaceAllF old (ins ++ old) fuel l) := by
  intro fuel
  induction fuel with
  | zero => intro l hocc; cases l with
    | nil => exact hocc
    | cons c rest => exact hocc
  | succ fuel ih =>
    intro l hocc
    cases l with
    | nil => exact hocc
    | cons c rest =>
      rw [replaceAllF]
      by_cases hpre : old.isPrefixOf (c :: rest)
      · rw [if_pos hpre]
        exact ⟨ins, replaceAllF old (ins ++ old) fuel ((c :: rest).drop old.length), by simp⟩
      · rw [if_neg hpre]
        obtain ⟨A, B, hAB⟩ := hocc
        cases A with
        | nil =>
          exact absurd (List.isPrefixOf_iff_prefix.mpr ⟨B, by simpa using hAB.symm⟩) hpre
        | cons a A' =>
          obtain ⟨rfl, hrest⟩ : c = a ∧ rest = A' ++ old ++ B := by
            have := hAB
            simp only [List.cons_append, List.cons.injEq] at this
            exact this
          obtain ⟨X, Y, hXY⟩ := ih rest ⟨A', B, hrest⟩
          exact ⟨c :: X, Y, by rw [hXY]; simp⟩

/-- The whole run only inserts text: the original manifest is a subsequence of
the final text. -/
theorem runMain_sublist (content : List Char) (dirFiles : List (List Char)) :
    content <+ (runMain content dirFiles).text := by
  by_cases h : missingOf content dirFiles = []
  · rw [runMain_empty h]
  · rw [runMain_text h]
    have h1 : content <+ pyReplace content marker1
        (joinNL ((missingOf content dirFiles).map fileRefLine) ++ '\n' :: marker1) := by
      rw [show joinNL ((missingOf content dirFiles).map fileRefLine) ++ '\n' :: marker1 =
        (joinNL ((missingOf content dirFiles).map fileRefLine) ++ ['\n']) ++ marker1 by simp,
        pyReplace]
      exact replaceAllF_sublist marker1 _ content.length content
    refine h1.trans ?_
    have h2 : ∀ l, l <+ pyReplace l marker2
        (joinNL ((missingOf content dirFiles).map buildFileLine) ++ '\n' :: marker2) := by
      intro l
      rw [show joinNL ((missingOf content dirFiles).map buildFileLine) ++ '\n' :: marker2 =
        (joinNL ((missingOf content dirFiles).map buildFileLine) ++ ['\n']) ++ marker2 by simp,
        pyReplace]
      exact replaceAllF_sublist marker2 _ l.length l
    refine (h2 _).trans ?_
    have h3 : ∀ l, l <+ pyResub matchGroupAt
        ('\n' :: joinNL ((missingOf content dirFiles).map groupChildLine)) l := fun l =>
      resubF_sublist matchGroupAt _ (fun l' mt r h => matchGroupAt_eq_append h) l.length l
    refine (h3 _).trans ?_
    exact resubF_sublist matchResAt _ (fun l' mt r h => matchResAt_eq_append h) _ _

end

/-- C7: when every discovered file is already registered (`diff` empty), `main`
returns before any insertion or write: the text is byte-identical, nothing is
written, and the only output is the already-synced message. -/
theorem C7_no_write_on_empty_diff (content : List Char) (dirFiles : List (List Char))
    (h : missingOf content dirFiles = []) :
    runMain content dirFiles = ⟨content, false, [allSyncedMsg]⟩ := runMain_empty h

/-- C7 witness: a manifest already registering the only audio file. -/
theorem C7_no_write_on_empty_diff_witness :
    missingOf ("x /* a.mp3 */ y".data) ["a.mp3".data, "b.txt".data] = [] ∧
    runMain ("x /* a.mp3 */ y".data) ["a.mp3".data, "b.txt".data] =
      ⟨"x /* a.mp3 */ y".data, false, [allSyncedMsg]⟩ :=
  ⟨by decide, C7_no_write_on_empty_diff ("x /* a.mp3 */ y".data)
    ["a.mp3".data, "b.txt".data] (by decide)⟩

/-- C3 (amended): in any single run, records are generated exactly for the
filenames that are absent from the registration scan: a registered filename is
never in the missing list (so no second record set is emitted for it), and
every missing filename is an unregistered discovered audio file. -/
theorem C3_non_duplication_amended (content : List Char) (dirFiles : List (List Char))
    (f : List Char) :
    (f ∈ get_existing_files content → f ∉ missingOf content dirFiles) ∧
    (f ∈ missingOf content dirFiles →
      f ∈ get_audio_files dirFiles ∧ f ∉ get_existing_files content) :=
  ⟨fun hreg hmiss => (mem_missingOf.mp hmiss).2 hreg, fun hmiss => mem_missingOf.mp hmiss⟩

/-- C3 witness: a registered `a.mp3` is not among the missing files. -/
theorem C3_non_duplication_witness :
    "a.mp3".data ∈ get_existing_files ("/* a.mp3 */".data) ∧
    "a.mp3".data ∉ missingOf ("/* a.mp3 */".data) ["a.mp3".data, "b.mp3".data] :=
  ⟨by decide, (C3_non_duplication_amended ("/* a.mp3 */".data)
    ["a.mp3".data, "b.mp3".data] "a.mp3".data).1 (by decide)⟩

/-- C2 (amended): completeness for the files the run patches.  If the manifest
contains the FileReference section-end marker, then after one run every
missing filename whose stem is over `[a-zA-Z0-9_-]` is registered in the
resulting text.  The restriction to not-yet-registered filenames is necessary:
on `mclash`, where the marker occurrence overlaps the closing `*/` of the
registered comment `/* a.mp3 */`, one run corrupts that comment and `a.mp3`
(registered before, nice stem, marker present) is no longer registered. -/
theorem C2_completeness_amended :
    (∀ content dirFiles f, NiceName f → Occurs marker1 content →
      f ∈ missingOf content dirFiles →
      f ∈ get_existing_files ((runMain content dirFiles).text)) ∧
    ("a.mp3".data ∈ get_existing_files mclash ∧ NiceName "a.mp3".data ∧
      Occurs marker1 mclash ∧
      "a.mp3".data ∉
        get_existing_files ((runMain mclash ["a.mp3".data, "b.mp3".data]).text)) :=
  ⟨fun _ _ _ hf hm1 hmiss => registered_after_run hf hm1 hmiss,
   by decide, by decide, by decide, by decide⟩

/-- C1 (amended): idempotence.  If every discovered audio filename is
well-formed, the manifest contains the FileReference section-end marker, and
the run does not un-register any previously registered audio file (which holds
for every well-formed manifest), then a second run finds nothing missing and
leaves the bytes of the manifest untouched. -/
theorem C1_idempotence_amended (content : List Char) (dirFiles : List (List Char))
    (hnice : ∀ f ∈ get_audio_files dirFiles, NiceName f)
    (hm1 : Occurs marker1 content)
    (hpres : ∀ f ∈ get_audio_files dirFiles, f ∈ get_existing_files content →
      f ∈ get_existing_files ((runMain content dirFiles).text)) :
    runMain ((runMain content dirFiles).text) dirFiles =
      ⟨(runMain content dirFiles).text, false, [allSyncedMsg]⟩ := by
  apply runMain_empty
  rw [List.eq_nil_iff_forall_not_mem]
  intro f hfm
  obtain ⟨hfa, hnot⟩ := mem_missingOf.mp hfm
  apply hnot
  by_cases hreg : f ∈ get_existing_files content
  · exact hpres f hfa hreg
  · exact registered_after_run (hnice f hfa) hm1 (mem_missingOf.mpr ⟨hfa, hreg⟩)

/-- C10 (amended): characterization of the registration scan.  Soundness:
every scanned name is a well-formed filename standing as the entire body of a
`/* ... */` comment (up to whitespace) — in particular a name merely mentioned
inside a longer comment is not registered, and a name with a space or an extra
dot in its stem is never returned.  Completeness: a well-formed filename whose
single-space-padded comment occurs anywhere (with a non-`*` character in
front, as in every generated record line) is registered. -/
theorem C10_scan_characterization_amended :
    (∀ content g, g ∈ get_existing_files content → NiceName g ∧
      ∃ A w₁ w₂ B, (∀ c ∈ w₁, isPyWs c = true) ∧ (∀ c ∈ w₂, isPyWs c = true) ∧
        content = A ++ ('/' :: '*' :: (w₁ ++ g ++ w₂ ++ ['*', '/'])) ++ B) ∧
    (∀ f X Y, NiceName f → f ∈ get_existing_files (X ++ trackedBlock f ++ Y)) :=
  ⟨fun content g h => findallF_sound content.length content g h,
   fun _ X Y hf => mem_get_existing_files_tracked hf X Y⟩

/-- C10 witness: `b.mp3` as a whole comment is registered; the soundness
direction applied to that scan result. -/
theorem C10_scan_characterization_witness :
    NiceName "b.mp3".data ∧
    "b.mp3".data ∈ get_existing_files ([] ++ trackedBlock "b.mp3".data ++ []) ∧
    NiceName "b.mp3".data ∧
    ∃ A w₁ w₂ B, (∀ c ∈ w₁, isPyWs c = true) ∧ (∀ c ∈ w₂, isPyWs c = true) ∧
      " /* b.mp3 */ ".data = A ++ ('/' :: '*' :: (w₁ ++ "b.mp3".data ++ w₂ ++ ['*', '/'])) ++ B :=
  ⟨by decide,
   C10_scan_characterization_amended.2 "b.mp3".data [] [] (by decide),
   (C10_scan_characterization_amended.1 (" /* b.mp3 */ ".data) "b.mp3".data (by decide)).1,
   ((C10_scan_characterization_amended.1 (" /* b.mp3 */ ".data) "b.mp3".data (by decide)).2)⟩

/-- C4 (amended): structural mismatch is tolerated region by region, and
silently.  Each of the four insertions — the FileReference and BuildFile
section-end-marker splices and the Audio-group and Resources-phase pattern
splices — is a no-op returning its input text unchanged whenever its marker
does not occur, respectively its pattern matches at no position, in the text
that insertion is applied to (and the script, being total, does not crash).
The patching branch always performs all four insertions in sequence, so the
other insertions still proceed after any number of such no-ops.  But no
warning is emitted: the printed messages are the fixed found/generated/success
lines, identical for every manifest shape. -/
theorem C4_structural_mismatch_amended :
    (∀ text ins, ¬ Occurs marker1 text → pyReplace text marker1 ins = text) ∧
    (∀ text ins, ¬ Occurs marker2 text → pyReplace text marker2 ins = text) ∧
    (∀ text ins, (∀ i ≤ text.length, matchGroupAt (text.drop i) = none) →
      pyResub matchGroupAt ins text = text) ∧
    (∀ text ins, (∀ i ≤ text.length, matchResAt (text.drop i) = none) →
      pyResub matchResAt ins text = text) ∧
    (∀ content dirFiles, missingOf content dirFiles ≠ [] →
      (runMain content dirFiles).text =
        pyResub matchResAt ('\n' :: joinNL ((missingOf content dirFiles).map phaseEntryLine))
          (pyResub matchGroupAt
            ('\n' :: joinNL ((missingOf content dirFiles).map groupChildLine))
            (pyReplace
              (pyReplace content marker1
                (joinNL ((missingOf content dirFiles).map fileRefLine) ++ '\n' :: marker1))
              marker2
              (joinNL ((missingOf content dirFiles).map buildFileLine) ++ '\n' :: marker2))) ∧
      (runMain content dirFiles).messages =
        foundMsg (missingOf content dirFiles).length ::
          (missingOf content dirFiles).map itemMsg ++
          (missingOf content dirFiles).map genMsg ++
          [successMsg (missingOf content dirFiles).length, rebuildMsg]) := by
  refine ⟨fun text ins h => pyReplace_of_not_occurs text marker1 ins h,
          fun text ins h => pyReplace_of_not_occurs text marker2 ins h,
          fun text ins h => pyResub_of_no_match matchGroupAt ins text (fun i => ?_),
          fun text ins h => pyResub_of_no_match matchResAt ins text (fun i => ?_),
          fun content dirFiles hne => ⟨runMain_text hne, (runMain_wrote_messages hne).2⟩⟩
  · by_cases hi : i ≤ text.length
    · exact h i hi
    · rw [List.drop_eq_nil_of_le (by omega)]; rfl
  · by_cases hi : i ≤ text.length
    · exact h i hi
    · rw [List.drop_eq_nil_of_le (by omega)]; rfl

/-- C5: frame preservation.  The whole run only inserts text (the original
manifest is a subsequence of the result, so all content outside the inserted
spans is preserved byte-for-byte in order), and each marker splice reproduces
its marker, leaving the region delimiter textually intact. -/
theorem C5_frame_preservation :
    (∀ content dirFiles, List.Sublist content ((runMain content dirFiles).text)) ∧
    (∀ content ins, Occurs marker1 content →
      Occurs marker1 (pyReplace content marker1 (ins ++ marker1))) ∧
    (∀ content ins, Occurs marker2 content →
      Occurs marker2 (pyReplace content marker2 (ins ++ marker2))) :=
  ⟨runMain_sublist,
   fun content ins h => replaceAllF_keeps marker1 ins content.length content h,
   fun content ins h => replaceAllF_keeps marker2 ins content.length content h⟩

/-- C5 witness: the sublist fact on a concrete run, and marker preservation on
a concrete splice. -/
theorem C5_frame_preservation_witness :
    List.Sublist ("/* End PBXFileReference section */".data)
      ((runMain ("/* End PBXFileReference section */".data) ["b.mp3".data]).text) ∧
    Occurs marker1 ("/* End PBXFileReference section */".data) ∧
    Occurs marker1 (pyReplace ("/* End PBXFileReference section */".data) marker1
      ("X".data ++ marker1)) :=
  ⟨C5_frame_preservation.1 ("/* End PBXFileReference section */".data) ["b.mp3".data],
   by decide,
   C5_frame_preservation.2.1 ("/* End PBXFileReference section */".data) "X".data (by decide)⟩


/-- C9 (amended): every emitted record reproduces its template bit-exactly,
with the templates corrected to have no space after the opening brace; the
group-membership line matches the spec's template verbatim. -/
theorem C9_record_syntax_amended (f : List Char) :
    fileRefLine f = amendedReferenceRecord "\t\t".data
      (generate_uuid ("fileref_".data ++ f ++ "_v2".data)) f "PBXFileReference".data
      "audio.mp3".data "<group>".data ∧
    buildFileLine f = amendedBuildRecord "\t\t".data
      (generate_uuid ("buildfile_".data ++ f ++ "_v2".data)) f "PBXBuildFile".data
      (generate_uuid ("fileref_".data ++ f ++ "_v2".data)) ∧
    groupChildLine f = specGroupLine "\t\t\t\t".data
      (generate_uuid ("fileref_".data ++ f ++ "_v2".data)) f := by
  refine ⟨?_, ?_, ?_⟩
  · rw [fileRefLine, amendedReferenceRecord]
    rw [show (" */ = \x7bisa = PBXFileReference; lastKnownFileType = audio.mp3; path = ").data =
      " */ = \x7bisa = ".data ++ "PBXFileReference".data ++ "; lastKnownFileType = ".data ++
        "audio.mp3".data ++ "; path = ".data by decide,
      show ("; sourceTree = \"<group>\"; \x7d;").data =
        "; sourceTree = \"".data ++ "<group>".data ++ "\"; \x7d;".data by decide]
    simp
  · rw [buildFileLine, amendedBuildRecord]
    rw [show (" in Resources */ = \x7bisa = PBXBuildFile; fileRef = ").data =
      " in Resources */ = \x7bisa = ".data ++ "PBXBuildFile".data ++ "; fileRef = ".data
        by decide]
    simp
  · rw [groupChildLine, specGroupLine]

/-- C9 counterexample: the emitted reference record for `a.mp3` differs from
the spec's template (instantiated with the identifier the code itself derives,
and the fixed kind, type and group of the code): the spec writes a space after
the opening brace, the code does not.  The same discrepancy falsifies the
build-record template. -/
theorem C9_record_syntax_counterexample :
    fileRefLine "a.mp3".data ≠ specReferenceRecord "\t\t".data
      (generate_uuid "fileref_a.mp3_v2".data) "a.mp3".data "PBXFileReference".data
      "audio.mp3".data "<group>".data ∧
    buildFileLine "a.mp3".data ≠ specBuildRecord "\t\t".data
      (generate_uuid "buildfile_a.mp3_v2".data) "a.mp3".data "PBXBuildFile".data
      (generate_uuid "fileref_a.mp3_v2".data) := by
  constructor <;> decide

/-- C1 counterexample: with the resource file `a b.mp3` (stem containing a
space) the patcher is not idempotent — the registration regex can never match
the inserted comment `/* a b.mp3 */`, so a second run inserts the same records
again and the bytes differ. -/
theorem C1_idempotence_counterexample :
    (runMain ((runMain mtiny ["a b.mp3".data]).text) ["a b.mp3".data]).text ≠
      (runMain mtiny ["a b.mp3".data]).text := by decide

/-- C1 witness: on the canonical manifest the amended idempotence theorem
applies and the second run is a byte-level no-op. -/
theorem C1_idempotence_witness :
    (∀ f ∈ get_audio_files ["b.mp3".data, "a.mp3".data, "notes.txt".data], NiceName f) ∧
    Occurs marker1 mfull ∧
    (∀ f ∈ get_audio_files ["b.mp3".data, "a.mp3".data, "notes.txt".data],
      f ∈ get_existing_files mfull →
      f ∈ get_existing_files
        ((runMain mfull ["b.mp3".data, "a.mp3".data, "notes.txt".data]).text)) ∧
    runMain ((runMain mfull ["b.mp3".data, "a.mp3".data, "notes.txt".data]).text)
        ["b.mp3".data, "a.mp3".data, "notes.txt".data] =
      ⟨(runMain mfull ["b.mp3".data, "a.mp3".data, "notes.txt".data]).text, false,
        [allSyncedMsg]⟩ :=
  ⟨by decide, by decide, by decide,
   C1_idempotence_amended mfull ["b.mp3".data, "a.mp3".data, "notes.txt".data]
     (by decide) (by decide) (by decide)⟩

/-- C2 counterexample: `a b.mp3` is a directory file ending in `.mp3` and the
manifest contains both section markers, yet after one run the scan still does
not include it — completeness fails for stems outside `[a-zA-Z0-9_-]`. -/
theorem C2_completeness_counterexample :
    Occurs marker1 mfull ∧ Occurs marker2 mfull ∧
    "a b.mp3".data ∈ get_audio_files ["a b.mp3".data] ∧
    "a b.mp3".data ∉ get_existing_files ((runMain mfull ["a b.mp3".data]).text) := by
  refine ⟨by decide, by decide, by decide, by decide⟩

/-- C2 witness: the missing well-formed `b.mp3` is registered after one run on
the canonical manifest. -/
theorem C2_completeness_witness :
    NiceName "b.mp3".data ∧ Occurs marker1 mfull ∧
    "b.mp3".data ∈ missingOf mfull ["b.mp3".data, "a.mp3".data, "notes.txt".data] ∧
    "b.mp3".data ∈ get_existing_files
      ((runMain mfull ["b.mp3".data, "a.mp3".data, "notes.txt".data]).text) :=
  ⟨by decide, by decide, by decide,
   C2_completeness_amended.1 mfull ["b.mp3".data, "a.mp3".data, "notes.txt".data]
     "b.mp3".data (by decide) (by decide) (by decide)⟩

/-- C3 counterexample: after two runs on a manifest with the marker and the
file `a b.mp3`, the manifest holds two identical reference records for that
filename — non-duplication fails across runs for such names. -/
theorem C3_non_duplication_counterexample :
    countOccs (fileRefLine "a b.mp3".data)
      ((runMain ((runMain mtiny ["a b.mp3".data]).text) ["a b.mp3".data]).text) = 2 := by
  decide

/-- C6 counterexample: when the FileReference section-end marker occurs twice
in a manifest registering only `a.mp3`, one run adds `b.mp3`'s reference
record twice, not exactly once. -/
theorem C6_per_file_insertion_counterexample :
    get_existing_files mdup = ["a.mp3".data] ∧
    countOccs (fileRefLine "b.mp3".data)
      ((runMain mdup ["a.mp3".data, "b.mp3".data]).text) = 2 := by
  refine ⟨by decide, by decide⟩

/-- C6 (amended): the scenario on the canonical manifest, in which every
marker and pattern occurs exactly once.  One run adds exactly one reference
record, one build-inclusion record, one group-membership line (and one
build-phase entry) for `b.mp3`, leaves both of `a.mp3`'s records untouched,
and reports one missing file found and added. -/
theorem C6_single_file_patch_amended :
    runMain mfull ["b.mp3".data, "a.mp3".data, "notes.txt".data] =
      ⟨mfullOut, true, mfullMsgs⟩ ∧
    countOccs (fileRefLine "b.mp3".data) mfullOut = 1 ∧
    countOccs (buildFileLine "b.mp3".data) mfullOut = 1 ∧
    countOccs (groupChildLine "b.mp3".data) mfullOut = 1 ∧
    countOccs (phaseEntryLine "b.mp3".data) mfullOut = 1 ∧
    countOccs ("\t\tBBBB /* a.mp3 */ = \x7bisa = PBXFileReference; lastKnownFileType = audio.mp3; path = a.mp3; sourceTree = \"<group>\"; \x7d;".data)
      mfullOut = 1 ∧
    countOccs ("\t\tAAAA /* a.mp3 in Resources */ = \x7bisa = PBXBuildFile; fileRef = BBBB /* a.mp3 */; \x7d;".data)
      mfullOut = 1 ∧
    foundMsg 1 ∈ mfullMsgs ∧ successMsg 1 ∈ mfullMsgs := by
  refine ⟨by decide, by decide, by decide, by decide, by decide, by decide, by decide,
    by decide, by decide⟩

/-- C10 counterexample: in the manifest `/* x b.mp3 */`, the well-formed name
`b.mp3` occurs inside a `/* ... */` comment, yet the scan registers nothing —
the scan does not return every shaped name occurring inside a comment, only
names forming the entire comment body. -/
theorem C10_scan_characterization_counterexample :
    get_existing_files ("/* x b.mp3 */".data) = [] ∧
    NiceName "b.mp3".data ∧
    Occurs "b.mp3".data ("/* x b.mp3 */".data) := by
  refine ⟨by decide, by decide, by decide⟩

/-- C4 counterexample: on the manifest lacking the Audio group region, the run
still inserts the reference and build records, but its printed messages are
exactly the same fixed list as for the fully matching manifest — no warning
identifies the skipped group-region insertion. -/
theorem C4_structural_mismatch_counterexample :
    ¬ Occurs ("469C33ED2F07DD48002E908D".data) mnogroup ∧
    runMain mnogroup ["b.mp3".data, "a.mp3".data, "notes.txt".data] =
      ⟨mnogroupOut, true, mfullMsgs⟩ ∧
    (runMain mfull ["b.mp3".data, "a.mp3".data, "notes.txt".data]).messages = mfullMsgs := by
  refine ⟨by decide, by decide, by decide⟩

/-- C4 witness: each of the four no-op conjuncts applied at a concrete text
lacking the corresponding marker or pattern, and the pipeline conjunct applied
at a concrete patching run. -/
theorem C4_structural_mismatch_witness :
    (¬ Occurs marker1 "x".data ∧ pyReplace "x".data marker1 "I".data = "x".data) ∧
    (¬ Occurs marker2 "x".data ∧ pyReplace "x".data marker2 "I".data = "x".data) ∧
    ((∀ i ≤ ("x".data).length, matchGroupAt (("x".data).drop i) = none) ∧
      pyResub matchGroupAt "I".data "x".data = "x".data) ∧
    ((∀ i ≤ ("x".data).length, matchResAt (("x".data).drop i) = none) ∧
      pyResub matchResAt "I".data "x".data = "x".data) ∧
    (missingOf mtiny ["b.mp3".data] ≠ [] ∧
      (runMain mtiny ["b.mp3".data]).messages =
        foundMsg (missingOf mtiny ["b.mp3".data]).length ::
          (missingOf mtiny ["b.mp3".data]).map itemMsg ++
          (missingOf mtiny ["b.mp3".data]).map genMsg ++
          [successMsg (missingOf mtiny ["b.mp3".data]).length, rebuildMsg]) :=
  ⟨⟨by decide, C4_structural_mismatch_amended.1 "x".data "I".data (by decide)⟩,
   ⟨by decide, C4_structural_mismatch_amended.2.1 "x".data "I".data (by decide)⟩,
   ⟨by decide, C4_structural_mismatch_amended.2.2.1 "x".data "I".data (by decide)⟩,
   ⟨by decide, C4_structural_mismatch_amended.2.2.2.1 "x".data "I".data (by decide)⟩,
   ⟨by decide, (C4_structural_mismatch_amended.2.2.2.2 mtiny ["b.mp3".data] (by decide)).2⟩⟩
